import Mathlib

/-!
Verification of the codemap core: the declarative tree-sitter symbol
extraction engine (`codemap/parsers/treesitter_base.py`), the symbol model
and its JSON serialization (`codemap/parsers/base.py`), the sharded index
store (`codemap/core/map_store.py`), and the indexing orchestrator
(`codemap/core/indexer.py`, `codemap/core/hasher.py`).

Conventions of the embedding:
* Python `str` is `String`; slicing `s[:n]` is `String.take`, `s.strip()`
  is `String.trim`.
* Python `None`-able values are `Option`; truthiness of an optional string
  (`if x:`) is "present and non-empty".
* Python dicts that are used with insertion order (`files`,
  `node_mappings`) are association lists `List (String × α)` with
  insert-or-replace semantics.
* A raised exception that escapes a function is `Except.error`.
-/

set_option linter.unusedVariables false
set_option maxRecDepth 8192

namespace Codemap

/-- A concrete-syntax-tree node as handed to the engine by tree-sitter
(an external collaborator).  `startRow`/`endRow` are `start_point[0]` /
`end_point[0]`; `text` is the source slice `source_bytes[start_byte:end_byte]`
decoded, as produced by `_get_node_text`. -/
inductive TSNode where
  | mk (type : String) (startRow : Nat) (endRow : Nat) (text : String)
      (children : List TSNode)

def TSNode.type : TSNode → String
  | .mk t _ _ _ _ => t

def TSNode.startRow : TSNode → Nat
  | .mk _ s _ _ _ => s

def TSNode.endRow : TSNode → Nat
  | .mk _ _ e _ _ => e

def TSNode.text : TSNode → String
  | .mk _ _ _ x _ => x

def TSNode.children : TSNode → List TSNode
  | .mk _ _ _ _ c => c

/-- The code symbol model, `codemap.parsers.base.Symbol`.  The `children`
field is declared `list` in the dataclass but several parsers construct
`Symbol(children=None)` (e.g. `TreeSitterParser._extract_symbol` passes
`children if children else None`), so it is modelled as an `Option`. -/
inductive Symbol where
  | mk (name : String) (type : String) (lines : Nat × Nat)
      (signature : Option String) (docstring : Option String)
      (children : Option (List Symbol))

def Symbol.name : Symbol → String
  | .mk n _ _ _ _ _ => n

def Symbol.type : Symbol → String
  | .mk _ t _ _ _ _ => t

def Symbol.lines : Symbol → Nat × Nat
  | .mk _ _ l _ _ _ => l

def Symbol.signature : Symbol → Option String
  | .mk _ _ _ s _ _ => s

def Symbol.docstring : Symbol → Option String
  | .mk _ _ _ _ d _ => d

def Symbol.children : Symbol → Option (List Symbol)
  | .mk _ _ _ _ _ c => c

/-- Models `NodeMapping.name_child` is `str | list[str]` in Python. -/
inductive NameChild where
  | one (t : String)
  | many (ts : List String)

/-- Models `_extract_name` normalizes `name_child` to a list
(`if isinstance(name_children, str): name_children = [name_children]`). -/
def NameChild.toList : NameChild → List String
  | .one t => [t]
  | .many ts => ts

/-- Models `codemap.parsers.treesitter_base.NodeMapping`.  The unused
`docstring_extractor` field (always `"preceding_comment"`) is kept;
the `is_async_check` predicate is an arbitrary function on nodes. -/
structure NodeMapping where
  symbol_type : String
  name_child : NameChild
  signature_child : Option String
  body_child : Option String
  docstring_extractor : String
  is_async_check : Option (TSNode → Bool)

/-- Models `codemap.parsers.treesitter_base.LanguageConfig`.  (The
doc-comment-marker field is never read by the generic engine and is
omitted.) -/
structure LanguageConfig where
  name : String
  extensions : List String
  grammar_module : String
  node_mappings : List (String × NodeMapping)
  export_wrappers : List String
  comment_types : List String

/-- Python truthiness of an optional string (`if mapping.signature_child:`). -/
def optStrTruthy : Option String → Bool
  | none => false
  | some s => s ≠ ""

/-- Models `self.config.node_mappings.get(node.type)`. -/
def mappingFor (cfg : LanguageConfig) (t : String) : Option NodeMapping :=
  (cfg.node_mappings.find? (fun kv => kv.1 == t)).map (fun kv => kv.2)

/-- Models `TreeSitterParser._find_child`: first child with the given type. -/
def findChild (n : TSNode) (t : String) : Option TSNode :=
  n.children.find? (fun c => c.type == t)

/-- Models `TreeSitterParser._get_node_text` (returns `""` for `None`). -/
def getNodeText : Option TSNode → String
  | none => ""
  | some n => n.text

/-- The candidate loop of `TreeSitterParser._extract_name`: the first
candidate child type that is found wins; if no candidate child is found the
sentinel `"<anonymous>"` is returned. -/
def extractNameFrom (node : TSNode) : List String → String
  | [] => "<anonymous>"
  | t :: rest =>
    match findChild node t with
    | some nameNode => getNodeText (some nameNode)
    | none => extractNameFrom node rest

/-- Models `TreeSitterParser._extract_name`. -/
def extractName (node : TSNode) (m : NodeMapping) : String :=
  extractNameFrom node m.name_child.toList

/-- Models `TreeSitterParser._extract_signature`. -/
def extractSignature (node : TSNode) (m : NodeMapping) : Option String :=
  match m.signature_child with
  | none => none
  | some sc =>
    if sc = "" then none
    else
      match findChild node sc with
      | some sigNode =>
        let sig := getNodeText (some sigNode)
        match (findChild node "return_type").orElse
            (fun _ => findChild node "type_annotation") with
        | some retNode => some (sig ++ " : " ++ getNodeText (some retNode))
        | none => some sig
      | none => none

/-- Python string slicing `s[:n]`: Python strings are sequences of code
points, so the slice is by whole characters. -/
def pyTake (s : String) (n : Nat) : String :=
  ⟨s.data.take n⟩

theorem pyTake_length (s : String) (n : Nat) :
    (pyTake s n).length = min n s.length := by
  cases s with
  | mk l =>
    show (l.take n).length = min n l.length
    simp

/-- One line of the JSDoc branch of `_clean_comment`:
`line.strip().lstrip("*").strip()`. -/
def cleanJSDocLine (line : String) : String :=
  ((line.trim.dropWhile (fun c => c = '*')).trim)

/-- Models `TreeSitterParser._clean_comment`. -/
def cleanComment (comment : String) : Option String :=
  if comment = "" then none
  else if comment.startsWith "/**" then
    let inner := (((comment.drop 3).dropRight 2)).trim
    let ls := ((inner.splitOn "\n").map cleanJSDocLine).filter
        (fun l => (l != "") && !(l.startsWith "@"))
    if ls.isEmpty then none
    else some (pyTake (String.intercalate " " ls) 150)
  else if comment.startsWith "///" then some (pyTake ((comment.drop 3).trim) 150)
  else if comment.startsWith "//" then some (pyTake ((comment.drop 2).trim) 150)
  else if comment.startsWith "#" then some (pyTake ((comment.drop 1).trim) 150)
  else if comment.trim = "" then none
  else some (pyTake comment.trim 150)

/-- Models `TreeSitterParser._extract_docstring`: looks at `node.prev_sibling`,
which the traversal loops thread explicitly here. -/
def extractDocstring (cfg : LanguageConfig) (prev : Option TSNode) : Option String :=
  match prev with
  | some ps =>
    if cfg.comment_types.contains ps.type then cleanComment (getNodeText (some ps))
    else none
  | none => none

theorem TSNode.sizeOf_children_lt (n : TSNode) : sizeOf n.children < sizeOf n := by
  cases n with
  | mk t s e x c => simp [TSNode.children]

theorem findChild_mem {n : TSNode} {t : String} {c : TSNode}
    (h : findChild n t = some c) : c ∈ n.children :=
  List.mem_of_find?_eq_some h

theorem sizeOf_lt_of_mem_children {c n : TSNode} (h : c ∈ n.children) :
    sizeOf c < sizeOf n :=
  lt_trans (List.sizeOf_lt_of_mem h) (TSNode.sizeOf_children_lt n)

mutual

/-- Models `TreeSitterParser._extract_symbol`.  `prev` is `node.prev_sibling`. -/
def extractSymbol (cfg : LanguageConfig) (prev : Option TSNode) (node : TSNode) :
    Option Symbol :=
  match mappingFor cfg node.type with
  | none => none
  | some m =>
    let name := extractName node m
    if name = "" then none
    else
      let symbolType :=
        match m.is_async_check with
        | some check => if check node then "async_" ++ m.symbol_type else m.symbol_type
        | none => m.symbol_type
      let signature :=
        if optStrTruthy m.signature_child then extractSignature node m else none
      let docstring := extractDocstring cfg prev
      let children :=
        match m.body_child with
        | some bc =>
          if bc = "" then []
          else
            match hb : findChild node bc with
            | some body => extractChildrenList cfg none body.children
            | none => []
        | none => []
      some (.mk name symbolType (node.startRow + 1, node.endRow + 1)
        signature docstring (if children.isEmpty then none else some children))
termination_by sizeOf node
decreasing_by
  all_goals simp_wf
  all_goals have hmem := findChild_mem hb
  all_goals have h1 := sizeOf_lt_of_mem_children hmem
  all_goals have h2 := TSNode.sizeOf_children_lt body
  all_goals omega

/-- The loop of `TreeSitterParser._extract_children`: mapped direct children
of a body node are extracted, with bare `function`/`async_function` symbols
re-tagged to `method`/`async_method`. -/
def extractChildrenList (cfg : LanguageConfig) (prev : Option TSNode) :
    List TSNode → List Symbol
  | [] => []
  | c :: rest =>
    let here :=
      if (mappingFor cfg c.type).isSome then
        match extractSymbol cfg prev c with
        | some s =>
          if s.type = "function" then
            [Symbol.mk s.name "method" s.lines s.signature s.docstring s.children]
          else if s.type = "async_function" then
            [Symbol.mk s.name "async_method" s.lines s.signature s.docstring
              s.children]
          else [s]
        | none => []
      else []
    here ++ extractChildrenList cfg (some c) rest
termination_by l => sizeOf l
decreasing_by
  all_goals simp_wf
  all_goals try omega

/-- The loop of `TreeSitterParser._extract_from_wrapper`: mapped direct
children of a wrapper node (no re-tagging, no deeper descent). -/
def extractFromWrapperList (cfg : LanguageConfig) (prev : Option TSNode) :
    List TSNode → List Symbol
  | [] => []
  | c :: rest =>
    let here :=
      if (mappingFor cfg c.type).isSome then
        match extractSymbol cfg prev c with
        | some s => [s]
        | none => []
      else []
    here ++ extractFromWrapperList cfg (some c) rest
termination_by l => sizeOf l
decreasing_by
  all_goals simp_wf

/-- The loop of `TreeSitterParser._extract_symbols`: a mapped child is
extracted, an export-wrapper child is searched one level deep, every other
child is ignored. -/
def extractSymbolsList (cfg : LanguageConfig) (prev : Option TSNode) :
    List TSNode → List Symbol
  | [] => []
  | c :: rest =>
    let here :=
      if (mappingFor cfg c.type).isSome then
        match extractSymbol cfg prev c with
        | some s => [s]
        | none => []
      else if cfg.export_wrappers.contains c.type then
        extractFromWrapperList cfg none c.children
      else []
    here ++ extractSymbolsList cfg (some c) rest
termination_by l => sizeOf l
decreasing_by
  all_goals simp_wf

end

/-- Models `TreeSitterParser._extract_symbols` applied to a node. -/
def extractSymbols (cfg : LanguageConfig) (node : TSNode) : List Symbol :=
  extractSymbolsList cfg none node.children

/-- Models `TreeSitterParser._extract_children` applied to a body node. -/
def extractChildren (cfg : LanguageConfig) (body : TSNode) : List Symbol :=
  extractChildrenList cfg none body.children

/-! ### Engine lemmas -/

theorem extractNameFrom_of_all_none {node : TSNode} {ts : List String}
    (h : ∀ t ∈ ts, findChild node t = none) :
    extractNameFrom node ts = "<anonymous>" := by
  induction ts with
  | nil => rfl
  | cons t rest ih =>
    have h0 : findChild node t = none := h t (List.mem_cons_self t rest)
    simp only [extractNameFrom, h0]
    exact ih (fun t' ht' => h t' (List.mem_cons_of_mem t ht'))

theorem extractSymbol_eq_none_of_unmapped {cfg : LanguageConfig} {prev : Option TSNode}
    {node : TSNode} (hm : mappingFor cfg node.type = none) :
    extractSymbol cfg prev node = none := by
  simp [extractSymbol, hm]

theorem mappingFor_isSome_of_extractSymbol {cfg : LanguageConfig} {prev : Option TSNode}
    {node : TSNode} {s : Symbol} (h : extractSymbol cfg prev node = some s) :
    (mappingFor cfg node.type).isSome = true := by
  cases hm : mappingFor cfg node.type with
  | none => rw [extractSymbol_eq_none_of_unmapped hm] at h; exact absurd h (by simp)
  | some m => rfl

/-- The `prev_sibling` of the element that follows the block `pre` inside a
child list, when the element before `pre` is `prev`. -/
def prevFor (prev : Option TSNode) (pre : List TSNode) : Option TSNode :=
  match pre.getLast? with
  | some x => some x
  | none => prev

theorem prevFor_cons (prev : Option TSNode) (p : TSNode) (pre : List TSNode) :
    prevFor prev (p :: pre) = prevFor (some p) pre := by
  cases pre with
  | nil => simp [prevFor]
  | cons q qs => simp [prevFor, List.getLast?]

theorem mem_extractFromWrapperList {cfg : LanguageConfig} {g : TSNode} {sym : Symbol}
    (pre post : List TSNode) (prev : Option TSNode)
    (hs : extractSymbol cfg (prevFor prev pre) g = some sym) :
    sym ∈ extractFromWrapperList cfg prev (pre ++ g :: post) := by
  induction pre generalizing prev with
  | nil =>
    simp only [prevFor, List.getLast?] at hs
    have hm := mappingFor_isSome_of_extractSymbol hs
    simp only [List.nil_append, extractFromWrapperList, hm, if_true, hs]
    exact List.mem_append_left _ (List.mem_singleton.mpr rfl)
  | cons p pre' ih =>
    rw [prevFor_cons] at hs
    simp only [List.cons_append, extractFromWrapperList]
    exact List.mem_append_right _ (ih (some p) hs)

theorem mem_extractSymbolsList_of_wrapper {cfg : LanguageConfig} {c : TSNode}
    {sym : Symbol} (rpre rpost : List TSNode) (prev : Option TSNode)
    (hcm : mappingFor cfg c.type = none)
    (hcw : cfg.export_wrappers.contains c.type = true)
    (hmem : sym ∈ extractFromWrapperList cfg none c.children) :
    sym ∈ extractSymbolsList cfg prev (rpre ++ c :: rpost) := by
  induction rpre generalizing prev with
  | nil =>
    simp only [List.nil_append, extractSymbolsList, hcm, hcw]
    exact List.mem_append_left _ (by simp [hcm, hcw, hmem])
  | cons p pre' ih =>
    simp only [List.cons_append, extractSymbolsList]
    exact List.mem_append_right _ (ih (some p))

/-! ### C1: anonymous-node policy -/

/-- C1 (amended): if a node's type has a rule but *no* candidate name
path finds a child node, the engine does not skip the node: it emits a
symbol whose name is the sentinel `"<anonymous>"` (and no error occurs).
The node is skipped only when a found name node has empty text. -/
theorem C1_no_candidate_emits_anonymous_symbol (cfg : LanguageConfig)
    (prev : Option TSNode) (node : TSNode) (m : NodeMapping)
    (hm : mappingFor cfg node.type = some m)
    (h : ∀ t ∈ m.name_child.toList, findChild node t = none) :
    ∃ s, extractSymbol cfg prev node = some s ∧ s.name = "<anonymous>" := by
  have hname : extractName node m = "<anonymous>" := extractNameFrom_of_all_none h
  simp only [extractSymbol, hm, extractName] at *
  simp [hname, Symbol.name]

/-- A language configuration with a single rule, used for the C1
counterexample: `struct_specifier` nodes emit `struct` symbols named by a
`type_identifier` child. -/
def cfgC1 : LanguageConfig :=
  { name := "c", extensions := [".c"], grammar_module := "c",
    node_mappings := [("struct_specifier",
      { symbol_type := "struct", name_child := .one "type_identifier",
        signature_child := none, body_child := none,
        docstring_extractor := "preceding_comment", is_async_check := none })],
    export_wrappers := [], comment_types := ["comment"] }

/-- An anonymous struct node: it has a rule but no `type_identifier` child,
so every candidate name path fails. -/
def nodeC1 : TSNode := .mk "struct_specifier" 0 2 "struct ... " []

/-- C1 counterexample: the claim says such a node is skipped entirely
(no symbol emitted); in fact the engine emits a symbol named
`"<anonymous>"`. -/
theorem C1_counterexample :
    extractSymbol cfgC1 none nodeC1 ≠ none ∧
      extractSymbol cfgC1 none nodeC1 =
        some (.mk "<anonymous>" "struct" (1, 3) none none none) := by
  constructor
  · simp [extractSymbol, mappingFor, cfgC1, nodeC1, extractName, NameChild.toList,
      extractNameFrom, findChild, optStrTruthy, extractDocstring, TSNode.type,
      TSNode.children, TSNode.startRow, TSNode.endRow]
  · simp [extractSymbol, mappingFor, cfgC1, nodeC1, extractName, NameChild.toList,
      extractNameFrom, findChild, optStrTruthy, extractDocstring, TSNode.type,
      TSNode.children, TSNode.startRow, TSNode.endRow]

/-- Witness for `C1_no_candidate_emits_anonymous_symbol`. -/
theorem C1_witness :
    ∃ s, extractSymbol cfgC1 none nodeC1 = some s ∧ s.name = "<anonymous>" :=
  C1_no_candidate_emits_anonymous_symbol cfgC1 none nodeC1
    { symbol_type := "struct", name_child := .one "type_identifier",
      signature_child := none, body_child := none,
      docstring_extractor := "preceding_comment", is_async_check := none }
    (by simp [mappingFor, cfgC1, nodeC1, TSNode.type])
    (by intro t ht
        simp [NameChild.toList] at ht
        simp [ht, findChild, nodeC1, TSNode.children])

/-! ### C2: traversal of unmapped nodes -/

/-- A language configuration for the C2 claims: `function_definition` nodes
are mapped, `export_statement` is the sole export wrapper. -/
def cfgC2 : LanguageConfig :=
  { name := "python", extensions := [".py"], grammar_module := "python",
    node_mappings := [("function_definition",
      { symbol_type := "function", name_child := .one "identifier",
        signature_child := none, body_child := none,
        docstring_extractor := "preceding_comment", is_async_check := none })],
    export_wrappers := ["export_statement"], comment_types := ["comment"] }

/-- A mapped function node with an `identifier` child named `f`. -/
def fnodeC2 : TSNode := .mk "function_definition" 1 2 "def f(): pass"
  [.mk "identifier" 1 1 "f" []]

/-- A root whose only child is an *unmapped, non-wrapper* node (e.g. a
`decorated_definition`) wrapping the mapped function node. -/
def rootC2 : TSNode := .mk "module" 0 3 ""
  [.mk "decorated_definition" 0 2 "" [fnodeC2]]

/-- C2 counterexample: the claim says the engine recurses into the
children of every node without a rule, so `f` would appear; in fact the
traversal ignores unmapped node types that are not configured export
wrappers, and the extraction result is empty even though the nested node is
mapped and extractable. -/
theorem C2_counterexample :
    extractSymbols cfgC2 rootC2 = [] ∧
      extractSymbol cfgC2 none fnodeC2 =
        some (.mk "f" "function" (2, 3) none none none) := by
  constructor
  · simp [extractSymbols, extractSymbolsList, rootC2, fnodeC2, mappingFor, cfgC2,
      TSNode.type, TSNode.children]
  · simp [extractSymbol, mappingFor, cfgC2, fnodeC2, extractName, NameChild.toList,
      extractNameFrom, findChild, getNodeText, optStrTruthy, extractDocstring,
      TSNode.type, TSNode.children, TSNode.startRow, TSNode.endRow, TSNode.text]

/-- C2 (amended): the generic traversal does **not** recurse into
arbitrary unmapped nodes.  It descends exactly one level into children whose
type is a configured export wrapper — a symbol extracted from a mapped
direct child of such a wrapper appears in the result — while a child whose
type is neither mapped nor a wrapper contributes nothing at all. -/
theorem C2_wrapper_transparency_only :
    (∀ (cfg : LanguageConfig) (root c g : TSNode) (rpre rpost pre post : List TSNode)
        (sym : Symbol),
        root.children = rpre ++ c :: rpost →
        mappingFor cfg c.type = none →
        cfg.export_wrappers.contains c.type = true →
        c.children = pre ++ g :: post →
        extractSymbol cfg (prevFor none pre) g = some sym →
        sym ∈ extractSymbols cfg root) ∧
    (∀ (cfg : LanguageConfig) (prev : Option TSNode) (c : TSNode)
        (rest : List TSNode),
        mappingFor cfg c.type = none →
        c.type ∉ cfg.export_wrappers →
        extractSymbolsList cfg prev (c :: rest) =
          extractSymbolsList cfg (some c) rest) := by
  constructor
  · intro cfg root c g rpre rpost pre post sym hroot hcm hcw hc hs
    have hmem : sym ∈ extractFromWrapperList cfg none c.children := by
      rw [hc]; exact mem_extractFromWrapperList pre post none hs
    rw [extractSymbols, hroot]
    exact mem_extractSymbolsList_of_wrapper rpre rpost none hcm hcw hmem
  · intro cfg prev c rest hcm hcw
    simp [extractSymbolsList, hcm, hcw]

/-- A wrapped mapped node for the C2 witness: an `export_statement` wrapper
around a mapped function node. -/
def wrapC2 : TSNode := .mk "export_statement" 1 2 "" [fnodeC2]

/-- A root whose only child is the export wrapper. -/
def rootC2w : TSNode := .mk "module" 0 3 "" [wrapC2]

/-- An unmapped, non-wrapper node used in the C2 witness. -/
def plainC2 : TSNode := .mk "comment" 0 0 "# hi" []

/-- Witness for `C2_wrapper_transparency_only`. -/
theorem C2_witness :
    (Symbol.mk "f" "function" (2, 3) none none none) ∈ extractSymbols cfgC2 rootC2w ∧
      extractSymbolsList cfgC2 none [plainC2] =
        extractSymbolsList cfgC2 (some plainC2) [] := by
  constructor
  · exact C2_wrapper_transparency_only.1 cfgC2 rootC2w wrapC2 fnodeC2 [] [] [] []
      (Symbol.mk "f" "function" (2, 3) none none none)
      (by simp [rootC2w, TSNode.children])
      (by simp [mappingFor, cfgC2, wrapC2, TSNode.type])
      (by simp [cfgC2, wrapC2, TSNode.type])
      (by simp [wrapC2, TSNode.children])
      (by simp [extractSymbol, mappingFor, cfgC2, fnodeC2, extractName,
        NameChild.toList, extractNameFrom, findChild, getNodeText, optStrTruthy,
        extractDocstring, prevFor, TSNode.type, TSNode.children, TSNode.startRow,
        TSNode.endRow, TSNode.text])
  · exact C2_wrapper_transparency_only.2 cfgC2 none plainC2 []
      (by simp [mappingFor, cfgC2, plainC2, TSNode.type])
      (by simp [cfgC2, plainC2, TSNode.type])


/-! ### C6: method re-tagging when collecting body children -/

/-- The inline re-tagging of `_extract_children`, as a function: a bare
`function` symbol becomes a `method`, an `async_function` an
`async_method`, everything else is returned unchanged. -/
def retagAsMethod (s : Symbol) : Symbol :=
  if s.type = "function" then
    Symbol.mk s.name "method" s.lines s.signature s.docstring s.children
  else if s.type = "async_function" then
    Symbol.mk s.name "async_method" s.lines s.signature s.docstring s.children
  else s

theorem mem_extractChildrenList_retag {cfg : LanguageConfig} {c : TSNode}
    {sym : Symbol} (pre post : List TSNode) (prev : Option TSNode)
    (hs : extractSymbol cfg (prevFor prev pre) c = some sym) :
    retagAsMethod sym ∈ extractChildrenList cfg prev (pre ++ c :: post) := by
  induction pre generalizing prev with
  | nil =>
    simp only [prevFor, List.getLast?] at hs
    have hm := mappingFor_isSome_of_extractSymbol hs
    simp only [List.nil_append, extractChildrenList, hm, if_true, hs]
    apply List.mem_append_left
    by_cases h1 : sym.type = "function"
    · simp [retagAsMethod, h1]
    · by_cases h2 : sym.type = "async_function"
      · simp [retagAsMethod, h1, h2]
      · simp [retagAsMethod, h1, h2]
  | cons p pre' ih =>
    rw [prevFor_cons] at hs
    simp only [List.cons_append, extractChildrenList]
    exact List.mem_append_right _ (ih (some p) hs)

/-- C6: when the engine recurses into a rule's body node to collect
children, a symbol extracted from a mapped direct child of the body whose
kind is the bare `function` surfaces with kind `method` (and
`async_function` as `async_method`); its name, lines, signature, docstring
and children are unchanged by the re-tagging. -/
theorem C6_body_children_are_retagged (cfg : LanguageConfig) (body c : TSNode)
    (pre post : List TSNode) (sym : Symbol)
    (hb : body.children = pre ++ c :: post)
    (hs : extractSymbol cfg (prevFor none pre) c = some sym) :
    ∃ sym', sym' ∈ extractChildren cfg body ∧
      sym'.name = sym.name ∧ sym'.lines = sym.lines ∧
      sym'.signature = sym.signature ∧ sym'.docstring = sym.docstring ∧
      sym'.children = sym.children ∧
      (sym.type = "function" → sym'.type = "method") ∧
      (sym.type = "async_function" → sym'.type = "async_method") ∧
      (sym.type ≠ "function" → sym.type ≠ "async_function" →
        sym'.type = sym.type) := by
  refine ⟨retagAsMethod sym, ?_, ?_⟩
  · rw [extractChildren, hb]
    exact mem_extractChildrenList_retag pre post none hs
  · cases sym with
    | mk n t l sg d ch =>
      simp only [Symbol.type, Symbol.name, Symbol.lines, Symbol.signature,
        Symbol.docstring, Symbol.children, retagAsMethod]
      by_cases h1 : t = "function"
      · simp [h1, Symbol.type, Symbol.name, Symbol.lines, Symbol.signature,
          Symbol.docstring, Symbol.children]
      · by_cases h2 : t = "async_function"
        · simp [h1, h2, Symbol.type, Symbol.name, Symbol.lines, Symbol.signature,
            Symbol.docstring, Symbol.children]
        · simp [h1, h2]

/-- A class body node whose only child is the mapped function node, for the
C6 witness. -/
def bodyC6 : TSNode := .mk "block" 1 2 "" [fnodeC2]

/-- Witness for `C6_body_children_are_retagged`. -/
theorem C6_witness :
    ∃ sym', sym' ∈ extractChildren cfgC2 bodyC6 ∧
      sym'.name = (Symbol.mk "f" "function" (2, 3) none none none).name ∧
      sym'.lines = (Symbol.mk "f" "function" (2, 3) none none none).lines ∧
      sym'.signature = (Symbol.mk "f" "function" (2, 3) none none none).signature ∧
      sym'.docstring = (Symbol.mk "f" "function" (2, 3) none none none).docstring ∧
      sym'.children = (Symbol.mk "f" "function" (2, 3) none none none).children ∧
      ((Symbol.mk "f" "function" (2, 3) none none none).type = "function" →
        sym'.type = "method") ∧
      ((Symbol.mk "f" "function" (2, 3) none none none).type = "async_function" →
        sym'.type = "async_method") ∧
      ((Symbol.mk "f" "function" (2, 3) none none none).type ≠ "function" →
        (Symbol.mk "f" "function" (2, 3) none none none).type ≠ "async_function" →
        sym'.type = (Symbol.mk "f" "function" (2, 3) none none none).type) :=
  C6_body_children_are_retagged cfgC2 bodyC6 fnodeC2 [] []
    (Symbol.mk "f" "function" (2, 3) none none none)
    (by simp [bodyC6, TSNode.children])
    (by simp [extractSymbol, mappingFor, cfgC2, fnodeC2, extractName,
      NameChild.toList, extractNameFrom, findChild, getNodeText, optStrTruthy,
      extractDocstring, prevFor, TSNode.type, TSNode.children, TSNode.startRow,
      TSNode.endRow, TSNode.text])

/-! ### Symbol and FileEntry JSON serialization (`base.py`, `map_store.py`) -/

/-- The JSON object produced by `Symbol.to_dict`: same shape as `Symbol`
but with the optional keys (`signature`, `docstring`, `children`) simply
absent (`none`) when omitted. -/
inductive SymbolDict where
  | mk (name : String) (type : String) (lines : Nat × Nat)
      (signature : Option String) (docstring : Option String)
      (children : Option (List SymbolDict))

/-- The `signature` entry of `Symbol.to_dict`: omitted when falsy, kept
as-is up to 100 characters, else truncated to the first 97 characters plus
`"..."`. -/
def serializeSignature : Option String → Option String
  | none => none
  | some s =>
    if s ≠ "" then
      if s.length ≤ 100 then some s else some (pyTake s 97 ++ "...")
    else none

/-- The `docstring` entry of `Symbol.to_dict`: omitted when falsy, else
stripped and truncated to 150 characters. -/
def serializeDocstring : Option String → Option String
  | none => none
  | some d =>
    if d ≠ "" then
      let dt := d.trim
      if dt.length > 150 then some (pyTake dt 150) else some dt
    else none

mutual

/-- Models `Symbol.to_dict`. -/
def Symbol.to_dict : Symbol → SymbolDict
  | .mk name ty lines sig doc ch =>
    .mk name ty lines (serializeSignature sig) (serializeDocstring doc)
      (match ch with
       | some (c :: cs) => some (Symbol.to_dictList (c :: cs))
       | _ => none)

/-- Models the comprehension `[c.to_dict() for c in self.children]`. -/
def Symbol.to_dictList : List Symbol → List SymbolDict
  | [] => []
  | c :: cs => Symbol.to_dict c :: Symbol.to_dictList cs

end

mutual

/-- Models `Symbol.from_dict`: reconstructs a symbol; missing `children` (i.e.
`data.get("children", [])`) becomes the empty list, so the rebuilt field is
always an explicit list, never `None`. -/
def Symbol.from_dict : SymbolDict → Symbol
  | .mk name ty lines sig doc (some l) =>
    .mk name ty lines sig doc (some (Symbol.from_dictList l))
  | .mk name ty lines sig doc none =>
    .mk name ty lines sig doc (some [])

/-- Models the comprehension `[cls.from_dict(c) for c in data.get("children", [])]`. -/
def Symbol.from_dictList : List SymbolDict → List Symbol
  | [] => []
  | c :: cs => Symbol.from_dict c :: Symbol.from_dictList cs

end

mutual

/-- The normalization that one round of serialization applies to a symbol:
signature and docstring are put through their serialization filters and the
children field always becomes an explicit (possibly empty) list. -/
def normalizeSymbol : Symbol → Symbol
  | .mk name ty lines sig doc ch =>
    .mk name ty lines (serializeSignature sig) (serializeDocstring doc)
      (some (match ch with
             | some (c :: cs) => normalizeSymbolList (c :: cs)
             | _ => []))

/-- Models `normalizeSymbol` mapped over a list. -/
def normalizeSymbolList : List Symbol → List Symbol
  | [] => []
  | c :: cs => normalizeSymbol c :: normalizeSymbolList cs

end

/-- A signature field unchanged by serialization: absent, or non-empty and
at most 100 characters. -/
def isNormalOptSig : Option String → Bool
  | none => true
  | some s => (s != "") && decide (s.length ≤ 100)

/-- A docstring field unchanged by serialization: absent, or non-empty,
already stripped, and at most 150 characters. -/
def isNormalOptDoc : Option String → Bool
  | none => true
  | some d => (d != "") && (d.trim == d) && decide (d.length ≤ 150)

mutual

/-- A symbol is serialization-normal when its signature and docstring are
unchanged by the serialization filters and its children field is an
explicit list of normal symbols.  (`Symbol.from_dict` always rebuilds the
children field as an explicit list, but a reloaded docstring can still be
non-normal, e.g. unstripped.) -/
def isNormalSymbol : Symbol → Bool
  | .mk _ _ _ sig doc ch =>
    isNormalOptSig sig && isNormalOptDoc doc &&
      (match ch with
       | some l => isNormalSymbolList l
       | none => false)

/-- Models `isNormalSymbol` over a list. -/
def isNormalSymbolList : List Symbol → Bool
  | [] => true
  | c :: cs => isNormalSymbol c && isNormalSymbolList cs

end

mutual

theorem from_dict_to_dict (s : Symbol) :
    Symbol.from_dict (Symbol.to_dict s) = normalizeSymbol s := by
  cases s with
  | mk name ty lines sig doc ch =>
    cases ch with
    | none => simp [Symbol.to_dict, Symbol.from_dict, normalizeSymbol,
        Symbol.from_dictList, normalizeSymbolList]
    | some l =>
      cases l with
      | nil => simp [Symbol.to_dict, Symbol.from_dict, normalizeSymbol,
          Symbol.from_dictList, normalizeSymbolList]
      | cons c cs =>
        simp [Symbol.to_dict, Symbol.from_dict, normalizeSymbol]
        exact from_dictList_to_dictList (c :: cs)

theorem from_dictList_to_dictList (l : List Symbol) :
    Symbol.from_dictList (Symbol.to_dictList l) = normalizeSymbolList l := by
  cases l with
  | nil => simp [Symbol.to_dictList, Symbol.from_dictList, normalizeSymbolList]
  | cons c cs =>
    simp [Symbol.to_dictList, Symbol.from_dictList, normalizeSymbolList]
    exact ⟨from_dict_to_dict c, from_dictList_to_dictList cs⟩

end

theorem serializeSignature_of_normal {sig : Option String}
    (h : isNormalOptSig sig = true) : serializeSignature sig = sig := by
  cases sig with
  | none => rfl
  | some s =>
    simp [isNormalOptSig] at h
    simp [serializeSignature, h.1, h.2]

theorem serializeDocstring_of_normal {doc : Option String}
    (h : isNormalOptDoc doc = true) : serializeDocstring doc = doc := by
  cases doc with
  | none => rfl
  | some d =>
    simp [isNormalOptDoc] at h
    obtain ⟨⟨h1, h2⟩, h3⟩ := h
    simp [serializeDocstring, h1, h2]
    intro hgt
    exact absurd hgt (by omega)

mutual

theorem normalizeSymbol_of_normal (s : Symbol) (h : isNormalSymbol s = true) :
    normalizeSymbol s = s := by
  cases s with
  | mk name ty lines sig doc ch =>
    cases ch with
    | none => simp [isNormalSymbol] at h
    | some l =>
      simp only [isNormalSymbol, Bool.and_eq_true] at h
      cases l with
      | nil => simp [normalizeSymbol, serializeSignature_of_normal h.1.1,
          serializeDocstring_of_normal h.1.2]
      | cons c cs =>
        simp only [normalizeSymbol, serializeSignature_of_normal h.1.1,
          serializeDocstring_of_normal h.1.2]
        rw [normalizeSymbolList_of_normal (c :: cs) h.2]

theorem normalizeSymbolList_of_normal (l : List Symbol)
    (h : isNormalSymbolList l = true) : normalizeSymbolList l = l := by
  cases l with
  | nil => rfl
  | cons c cs =>
    simp only [isNormalSymbolList, Bool.and_eq_true] at h
    simp only [normalizeSymbolList]
    rw [normalizeSymbol_of_normal c h.1, normalizeSymbolList_of_normal cs h.2]

end

/-- Models `codemap.core.map_store.FileEntry`. -/
structure FileEntry where
  hash : String
  indexed_at : String
  language : String
  lines : Nat
  symbols : List Symbol

/-- The JSON object produced by `FileEntry.to_dict`. -/
structure FileEntryDict where
  hash : String
  indexed_at : String
  language : String
  lines : Nat
  symbols : List SymbolDict

/-- Models `FileEntry.to_dict`. -/
def FileEntry.to_dict (e : FileEntry) : FileEntryDict :=
  { hash := e.hash, indexed_at := e.indexed_at, language := e.language,
    lines := e.lines, symbols := Symbol.to_dictList e.symbols }

/-- Models `FileEntry.from_dict`. -/
def FileEntry.from_dict (d : FileEntryDict) : FileEntry :=
  { hash := d.hash, indexed_at := d.indexed_at, language := d.language,
    lines := d.lines, symbols := Symbol.from_dictList d.symbols }

/-- The normalization a serialization round applies to a `FileEntry`. -/
def normalizeEntry (e : FileEntry) : FileEntry :=
  { e with symbols := normalizeSymbolList e.symbols }

/-- A `FileEntry` whose symbols are all serialization-normal. -/
def isNormalEntry (e : FileEntry) : Bool :=
  isNormalSymbolList e.symbols

/-! ### C4: persistence round trip -/

/-- C4 (amended): serializing a `FileEntry` and deserializing it again
is not the identity but the explicit normalization `normalizeEntry` (empty
or `None` children become the explicit empty list, over-long signatures are
truncated to 97 characters plus `"..."`, docstrings are stripped and
truncated to 150 characters, empty-string optional fields are dropped); on
entries that are already serialization-normal (children stored as explicit
lists, signature absent or non-empty with at most 100 characters,
docstring absent or non-empty, already stripped, with at most 150
characters) the round trip is the identity.  A disk-loaded entry need not
be serialization-normal: a docstring truncated to a whitespace-ending
150-character prefix reloads unstripped, and the next serialization strips
it further, so even repeated persist/load cycles can keep changing such an
entry. -/
theorem C4_roundtrip_is_normalization :
    (∀ e : FileEntry, FileEntry.from_dict (FileEntry.to_dict e) = normalizeEntry e) ∧
    (∀ e : FileEntry, isNormalEntry e = true →
      FileEntry.from_dict (FileEntry.to_dict e) = e) := by
  have main : ∀ e : FileEntry,
      FileEntry.from_dict (FileEntry.to_dict e) = normalizeEntry e := by
    intro e
    simp [FileEntry.from_dict, FileEntry.to_dict, normalizeEntry,
      from_dictList_to_dictList]
  refine ⟨main, fun e he => ?_⟩
  rw [main e]
  simp only [normalizeEntry, normalizeSymbolList_of_normal e.symbols he]

/-- A stored entry as the tree-sitter engine produces it: one leaf symbol
whose `children` field is `None`. -/
def entryC4 : FileEntry :=
  { hash := "abc123def456", indexed_at := "2025-01-01T00:00:00+00:00",
    language := "python", lines := 2,
    symbols := [Symbol.mk "f" "function" (1, 2) none none none] }

/-- C4 counterexample: for a stored entry holding a leaf symbol with
`children=None` (the form `TreeSitterParser._extract_symbol` constructs),
persisting and loading does not give back the same entry — the reloaded
symbol carries `children=[]`. -/
theorem C4_counterexample :
    FileEntry.from_dict (FileEntry.to_dict entryC4) ≠ entryC4 ∧
      (FileEntry.from_dict (FileEntry.to_dict entryC4)).symbols =
        [Symbol.mk "f" "function" (1, 2) none none (some [])] ∧
      entryC4.symbols = [Symbol.mk "f" "function" (1, 2) none none none] := by
  refine ⟨?_, ?_, rfl⟩
  · intro h
    have hs := congrArg FileEntry.symbols h
    simp [entryC4, FileEntry.from_dict, FileEntry.to_dict, Symbol.to_dictList,
      Symbol.to_dict, Symbol.from_dictList, Symbol.from_dict] at hs
  · simp [entryC4, FileEntry.from_dict, FileEntry.to_dict, Symbol.to_dictList,
      Symbol.to_dict, Symbol.from_dictList, Symbol.from_dict,
      serializeSignature, serializeDocstring]

/-- A serialization-normal entry for the C4 witness. -/
def entryC4n : FileEntry :=
  { hash := "abc123def456", indexed_at := "2025-01-01T00:00:00+00:00",
    language := "python", lines := 10,
    symbols := [Symbol.mk "C" "class" (1, 9) none none
      (some [Symbol.mk "m" "method" (2, 5) (some "(self)") none (some [])])] }

/-- Witness for `C4_roundtrip_is_normalization`. -/
theorem C4_witness :
    FileEntry.from_dict (FileEntry.to_dict entryC4n) = normalizeEntry entryC4n ∧
      FileEntry.from_dict (FileEntry.to_dict entryC4n) = entryC4n :=
  ⟨C4_roundtrip_is_normalization.1 entryC4n,
    C4_roundtrip_is_normalization.2 entryC4n (by
      simp [isNormalEntry, entryC4n, isNormalSymbolList, isNormalSymbol,
        isNormalOptSig, isNormalOptDoc]
      decide)⟩

/-! ### C5: truncation bounds after serialization -/

mutual

/-- Every node of a serialized symbol tree has `signature` of at most 100
characters and `docstring` of at most 150 characters (when present). -/
def dictBounded : SymbolDict → Bool
  | .mk _ _ _ sig doc ch =>
    (match sig with | none => true | some s => decide (s.length ≤ 100)) &&
    (match doc with | none => true | some d => decide (d.length ≤ 150)) &&
    (match ch with | some l => dictBoundedList l | none => true)

/-- Models `dictBounded` over a list. -/
def dictBoundedList : List SymbolDict → Bool
  | [] => true
  | c :: cs => dictBounded c && dictBoundedList cs

end

theorem serializeSignature_length {sig : Option String} {s : String}
    (h : serializeSignature sig = some s) : s.length ≤ 100 := by
  cases sig with
  | none => simp [serializeSignature] at h
  | some v =>
    simp only [serializeSignature] at h
    by_cases hv : v = ""
    · simp [hv] at h
    · rw [if_pos hv] at h
      by_cases hl : v.length ≤ 100
      · rw [if_pos hl] at h
        cases h
        omega
      · rw [if_neg hl] at h
        obtain rfl : s = pyTake v 97 ++ "..." := by simpa using h.symm
        rw [String.length_append]
        have h1 := pyTake_length v 97
        have h2 : ("..." : String).length = 3 := by decide
        omega

theorem serializeDocstring_length {doc : Option String} {d : String}
    (h : serializeDocstring doc = some d) : d.length ≤ 150 := by
  cases doc with
  | none => simp [serializeDocstring] at h
  | some v =>
    simp only [serializeDocstring] at h
    by_cases hv : v = ""
    · simp [hv] at h
    · rw [if_pos hv] at h
      by_cases hl : v.trim.length > 150
      · rw [if_pos hl] at h
        obtain rfl : d = pyTake v.trim 150 := by simpa using h.symm
        have h1 := pyTake_length v.trim 150
        omega
      · rw [if_neg hl] at h
        cases h
        omega

theorem sizeOf_symChildren_lt {s : Symbol} {l : List Symbol}
    (h : s.children = some l) : sizeOf l < sizeOf s := by
  cases s with
  | mk n t li sg d ch =>
    simp only [Symbol.children] at h
    subst h
    simp
    omega

theorem to_dict_mk (name ty : String) (lines : Nat × Nat)
    (sig doc : Option String) (ch : Option (List Symbol)) :
    Symbol.to_dict (.mk name ty lines sig doc ch) =
      .mk name ty lines (serializeSignature sig) (serializeDocstring doc)
        (match ch with
         | some (c :: cs) => some (Symbol.to_dictList (c :: cs))
         | _ => none) := by
  cases ch with
  | none => rfl
  | some l =>
    cases l with
    | nil => rfl
    | cons c cs => rfl

theorem dictBounded_mk (name ty : String) (lines : Nat × Nat)
    (sig doc : Option String) (ch : Option (List SymbolDict)) :
    dictBounded (.mk name ty lines sig doc ch) =
      ((match sig with | none => true | some s => decide (s.length ≤ 100)) &&
       (match doc with | none => true | some d => decide (d.length ≤ 150)) &&
       (match ch with | some l => dictBoundedList l | none => true)) := by
  cases ch with
  | none => rfl
  | some l =>
    cases l with
    | nil => rfl
    | cons c cs => rfl

theorem dictBoundedList_to_dictList_aux :
    ∀ (n : Nat) (l : List Symbol), sizeOf l ≤ n →
      dictBoundedList (Symbol.to_dictList l) = true := by
  intro n
  induction n with
  | zero =>
    intro l hl
    cases l with
    | nil => rfl
    | cons c cs =>
      exfalso
      have hpos : 0 < sizeOf (c :: cs) := by
        simp only [List.cons.sizeOf_spec]
        omega
      omega
  | succ n ih =>
    intro l hl
    cases l with
    | nil => rfl
    | cons c cs =>
      have hc : sizeOf c < sizeOf (c :: cs) := by
        simp only [List.cons.sizeOf_spec]
        omega
      have hcs : sizeOf cs < sizeOf (c :: cs) := by
        simp only [List.cons.sizeOf_spec]
        omega
      simp only [Symbol.to_dictList, dictBoundedList, Bool.and_eq_true]
      refine ⟨?_, ih cs (by omega)⟩
      cases c with
      | mk name ty lines sig doc ch =>
        rw [to_dict_mk, dictBounded_mk]
        simp only [Bool.and_eq_true]
        refine ⟨⟨?_, ?_⟩, ?_⟩
        · cases hs : serializeSignature sig with
          | none => rfl
          | some s' => simpa using serializeSignature_length hs
        · cases hd : serializeDocstring doc with
          | none => rfl
          | some d' => simpa using serializeDocstring_length hd
        · cases ch with
          | none => rfl
          | some ll =>
            cases ll with
            | nil => rfl
            | cons c' cs' =>
              have hlt : sizeOf (c' :: cs') <
                  sizeOf (Symbol.mk name ty lines sig doc (some (c' :: cs'))) :=
                sizeOf_symChildren_lt rfl
              exact ih (c' :: cs') (by omega)

/-- C5: in every serialized symbol tree, a present `signature` has at
most 100 characters and a present `docstring` has at most 150 characters.
(Truncation in the embedding — `pyTake` — is by whole characters, exactly
as Python string slicing operates on code points, so no multi-byte
character can be split.) -/
theorem C5_serialized_truncation_bounds (s : Symbol) :
    dictBounded (Symbol.to_dict s) = true := by
  have h := dictBoundedList_to_dictList_aux (sizeOf [s]) [s] le_rfl
  simp only [Symbol.to_dictList, dictBoundedList, Bool.and_eq_true] at h
  exact h.1

/-! ### The sharded index store (`codemap/core/map_store.py`)

The embedding keeps the pieces of `MapStore` state the claims are about:
the manifest's `directories` list and aggregate symbol/file stats, the
`_dir_maps` cache, and the persisted shard files on disk, each
`DirectoryMap` being represented by its `files` dict (an insertion-ordered
association list).  Timestamps, the manifest's `version`/`root`/`config`
fields and the JSON text encoding carry no claim content and are omitted;
a shard present in `disk` stands for a parseable `.codemap.json` file. -/

/-- Models `files`/`_dir_maps`-style Python dict lookup (`d.get(k)`). -/
def lookupA {α : Type} : List (String × α) → String → Option α
  | [], _ => none
  | (k', v) :: rest, k => if k' = k then some v else lookupA rest k

/-- Python dict insert `d[k] = v`: replaces the value in place when the key
exists, appends at the end otherwise (insertion order). -/
def insertA {α : Type} : List (String × α) → String → α → List (String × α)
  | [], k, v => [(k, v)]
  | (k', v') :: rest, k, v =>
    if k' = k then (k, v) :: rest else (k', v') :: insertA rest k v

/-- Python dict delete `del d[k]` / shard file unlink (no-op when the key
is absent). -/
def eraseA {α : Type} : List (String × α) → String → List (String × α)
  | [], _ => []
  | (k', v') :: rest, k => if k' = k then rest else (k', v') :: eraseA rest k

theorem lookupA_insertA_self {α : Type} (l : List (String × α)) (k : String)
    (v : α) : lookupA (insertA l k v) k = some v := by
  induction l with
  | nil => simp [insertA, lookupA]
  | cons a rest ih =>
    by_cases hk : a.1 = k
    · simp [insertA, hk, lookupA]
    · simp [insertA, hk, lookupA, ih]

theorem lookupA_insertA_ne {α : Type} (l : List (String × α)) {k k' : String}
    (v : α) (h : k' ≠ k) : lookupA (insertA l k v) k' = lookupA l k' := by
  induction l with
  | nil => simp [insertA, lookupA, Ne.symm h]
  | cons a rest ih =>
    by_cases hk : a.1 = k
    · subst hk
      simp [insertA, lookupA, Ne.symm h]
    · by_cases hk' : a.1 = k'
      · simp [insertA, hk, lookupA, hk', h]
      · simp [insertA, hk, lookupA, hk', h, ih]

theorem lookupA_eraseA_ne {α : Type} (l : List (String × α)) {k k' : String}
    (h : k' ≠ k) : lookupA (eraseA l k) k' = lookupA l k' := by
  induction l with
  | nil => simp [eraseA]
  | cons a rest ih =>
    by_cases hk : a.1 = k
    · subst hk
      simp [eraseA, lookupA, Ne.symm h]
    · by_cases hk' : a.1 = k'
      · simp [eraseA, hk, lookupA, hk', h]
      · simp [eraseA, hk, lookupA, hk', h, ih]

theorem insertA_ne_nil {α : Type} (l : List (String × α)) (k : String)
    (v : α) : insertA l k v ≠ [] := by
  cases l with
  | nil => simp [insertA]
  | cons a rest =>
    by_cases hk : a.1 = k
    · simp [insertA, hk]
    · simp [insertA, hk]

/-- Models `str.split("/")` on the character level. -/
def splitSlashAux (acc : List Char) : List Char → List (List Char)
  | [] => [acc.reverse]
  | c :: cs =>
    if c = '/' then acc.reverse :: splitSlashAux [] cs
    else splitSlashAux (c :: acc) cs

/-- Join path components with `/`. -/
def joinSlash : List (List Char) → List Char
  | [] => []
  | [x] => x
  | x :: xs => x ++ '/' :: joinSlash xs

/-- Models `str(Path(rel_path).parent)` for a relative POSIX path, with the
code's `""`-for-root convention (`"" if path.parent == Path(".")`). -/
def pathDir (p : String) : String :=
  let parts := splitSlashAux [] p.data
  if parts.length ≤ 1 then "" else ⟨joinSlash parts.dropLast⟩

/-- Models `Path(rel_path).name`. -/
def pathFile (p : String) : String :=
  ⟨(splitSlashAux [] p.data).getLast?.getD []⟩

/-- The `files` dict of one `DirectoryMap`. -/
abbrev DirMap := List (String × FileEntry)

/-- The `MapStore` state plus the persisted shard files. -/
structure MapStoreS where
  directories : List String
  stats_files : Nat
  stats_symbols : Nat
  cache : List (String × DirMap)
  disk : List (String × DirMap)

/-- A freshly constructed store over an empty `.codemap` directory. -/
def emptyStore : MapStoreS :=
  { directories := [], stats_files := 0, stats_symbols := 0,
    cache := [], disk := [] }

/-- Models `MapStore._load_dir_map`: cached value if present; else the parsed
shard file if it exists (a corrupt file also yields the empty map); else a
fresh empty `DirectoryMap`.  The result is always cached. -/
def loadDirMap (st : MapStoreS) (d : String) : DirMap × MapStoreS :=
  match lookupA st.cache d with
  | some m => (m, st)
  | none =>
    let m := match lookupA st.disk d with
      | some dm => dm
      | none => []
    (m, { st with cache := insertA st.cache d m })

/-- Models `MapStore.update_file`. -/
def updateFile (st : MapStoreS) (p : String) (hash language : String)
    (lines : Nat) (symbols : List Symbol) (now : String) : MapStoreS :=
  let d := pathDir p
  let f := pathFile p
  let load := loadDirMap st d
  let st1 := load.2
  let m' := insertA load.1 f
    { hash := hash, indexed_at := now, language := language,
      lines := lines, symbols := symbols }
  let st2 := { st1 with cache := insertA st1.cache d m' }
  if st2.directories.contains d then st2
  else { st2 with directories := st2.directories ++ [d] }

/-- Models `MapStore.remove_file`.  When the shard empties, the directory leaves
the manifest, the cache entry is dropped and the shard file is unlinked. -/
def removeFile (st : MapStoreS) (p : String) : Bool × MapStoreS :=
  let d := pathDir p
  let f := pathFile p
  let load := loadDirMap st d
  let st1 := load.2
  if (lookupA load.1 f).isSome then
    let m' := eraseA load.1 f
    let st2 := { st1 with cache := insertA st1.cache d m' }
    if m'.isEmpty then
      (true, { st2 with directories := st2.directories.erase d,
                        cache := eraseA st2.cache d,
                        disk := eraseA st2.disk d })
    else (true, st2)
  else (false, st1)

/-- Models `MapStore.get_file` (also caches the loaded shard). -/
def getFile (st : MapStoreS) (p : String) : Option FileEntry × MapStoreS :=
  let d := pathDir p
  let f := pathFile p
  let load := loadDirMap st d
  (lookupA load.1 f, load.2)

/-- Models `MapStore._save_dir_map`: writes the cached map — note the
`if not dir_map: return` guard only skips a *missing* cache entry
(a `DirectoryMap` instance is always truthy), so a cached empty map is
written out as an empty shard file. -/
def saveDirMap (st : MapStoreS) (d : String) : MapStoreS :=
  match lookupA st.cache d with
  | none => st
  | some m => { st with disk := insertA st.disk d m }

/-- Models `MapStore.save`: every cached shard plus the manifest. -/
def save (st : MapStoreS) : MapStoreS :=
  (st.cache.map (fun kv => kv.1)).foldl saveDirMap st

/-- Python `str.lower()`: per-character lowercasing. -/
def pyLower (s : String) : String :=
  ⟨s.data.map Char.toLower⟩

/-- Does the haystack start with the needle (character lists)? -/
def startsWithList : List Char → List Char → Bool
  | [], _ => true
  | _ :: _, [] => false
  | a :: as, b :: bs => (a == b) && startsWithList as bs

/-- Scan for a contiguous occurrence of the needle. -/
def containsList (needle : List Char) : List Char → Bool
  | [] => needle.isEmpty
  | b :: bs => startsWithList needle (b :: bs) || containsList needle bs

/-- Python string containment `needle in haystack` (contiguous substring;
the empty string is contained in everything). -/
def pyInStr (needle haystack : String) : Bool :=
  containsList needle.data haystack.data

mutual

/-- The body of the `_count_symbols` loop for one symbol: a truthy (i.e.
non-empty-list) `children` field contributes the recursive
`_count_symbols(children)` call, inlined one step so that the recursion is
structural. -/
def countChildren : Symbol → Nat
  | .mk _ _ _ _ _ (some cs) =>
    if cs.isEmpty then 0 else cs.length + countExtra cs
  | .mk _ _ _ _ _ none => 0

/-- The loop of `MapStore._count_symbols`. -/
def countExtra : List Symbol → Nat
  | [] => 0
  | s :: rest => countChildren s + countExtra rest

end

/-- Models `MapStore._count_symbols`. -/
def countSymbols (l : List Symbol) : Nat :=
  if l.isEmpty then 0 else l.length + countExtra l

/-- The inlining in `countExtra` agrees with `countSymbols`. -/
theorem countExtra_cons (s : Symbol) (rest : List Symbol) :
    countExtra (s :: rest) =
      (match s.children with
       | some cs => if cs.isEmpty then 0 else countSymbols cs
       | none => 0) + countExtra rest := by
  cases s with
  | mk n t li sg d ch =>
    cases ch with
    | none => simp [countExtra, countChildren, Symbol.children]
    | some cs =>
      cases cs with
      | nil => simp [countExtra, countChildren, Symbol.children]
      | cons c cs' =>
        simp [countExtra, countChildren, countSymbols, Symbol.children]

/-- One `find_symbol` search result row. -/
structure SearchResult where
  file : String
  name : String
  type : String
  lines : Nat × Nat
  signature : Option String
  docstring : Option String

mutual

/-- Models `MapStore._search_symbol`.  The symbol itself is matched first, then
every child is searched (`for child in symbol.children`); when `children`
is `None` that loop raises `TypeError`, modelled as `Except.error`. -/
def searchSymbol (sym : Symbol) (filepath query : String)
    (stype : Option String) : Except Unit (List SearchResult) :=
  let hit : List SearchResult :=
    if pyInStr query (pyLower sym.name) then
      if (match stype with | none => true | some t => sym.type == t) then
        [{ file := filepath, name := sym.name, type := sym.type,
           lines := sym.lines, signature := sym.signature,
           docstring := sym.docstring }]
      else []
    else []
  match sym with
  | .mk _ _ _ _ _ none => .error ()
  | .mk _ _ _ _ _ (some cs) =>
    match searchList cs filepath query stype with
    | .error e => .error e
    | .ok rest => .ok (hit ++ rest)

/-- Models `_search_symbol` over a list of symbols (also the
`for symbol in entry.symbols` loop of `find_symbol`). -/
def searchList : List Symbol → String → String → Option String →
    Except Unit (List SearchResult)
  | [], _, _, _ => .ok []
  | c :: rest, filepath, query, stype =>
    match searchSymbol c filepath query stype with
    | .error e => .error e
    | .ok rs =>
      match searchList rest filepath query stype with
      | .error e => .error e
      | .ok rs2 => .ok (rs ++ rs2)

end

/-- The per-directory loop body of `find_symbol`: iterate the shard's
files, rebuilding each full relative path. -/
def searchDirMap (d query : String) (stype : Option String) :
    DirMap → Except Unit (List SearchResult)
  | [] => .ok []
  | (f, entry) :: rest =>
    let filepath := if d ≠ "" then d ++ "/" ++ f else f
    match searchList entry.symbols filepath query stype with
    | .error e => .error e
    | .ok rs =>
      match searchDirMap d query stype rest with
      | .error e => .error e
      | .ok rs2 => .ok (rs ++ rs2)

/-- The directory loop of `find_symbol`; shard loads mutate the cache and
an exception aborts the whole call. -/
def findSymbolAux (query : String) (stype : Option String) :
    List String → MapStoreS → Except Unit (List SearchResult) × MapStoreS
  | [], st => (.ok [], st)
  | d :: rest, st =>
    let load := loadDirMap st d
    match searchDirMap d query stype load.1 with
    | .error e => (.error e, load.2)
    | .ok rs =>
      let next := findSymbolAux query stype rest load.2
      match next.1 with
      | .error e => (.error e, next.2)
      | .ok rs2 => (.ok (rs ++ rs2), next.2)

/-- Models `MapStore.find_symbol` (the query is lowercased once up front). -/
def findSymbol (st : MapStoreS) (query : String) (stype : Option String) :
    Except Unit (List SearchResult) × MapStoreS :=
  findSymbolAux (pyLower query) stype st.directories st

/-- The directory loop of `MapStore.update_stats`. -/
def updateStatsAux : List String → MapStoreS → Nat → Nat → Nat × Nat × MapStoreS
  | [], st, tf, ts => (tf, ts, st)
  | d :: rest, st, tf, ts =>
    let load := loadDirMap st d
    let ts' := load.1.foldl (fun acc fe => acc + countSymbols fe.2.symbols) ts
    updateStatsAux rest load.2 (tf + load.1.length) ts'

/-- Models `MapStore.update_stats`. -/
def updateStats (st : MapStoreS) : MapStoreS :=
  let r := updateStatsAux st.directories st 0 0
  { r.2.2 with stats_files := r.1, stats_symbols := r.2.1 }

/-- One public `MapStore` operation, as named in the spec. -/
inductive StoreOp where
  | put (p hash language : String) (lines : Nat) (symbols : List Symbol)
      (now : String)
  | remove (p : String)
  | get (p : String)
  | find (q : String) (k : Option String)
  | stats
  | persist

/-- Apply one operation to the store state. -/
def runOp (st : MapStoreS) : StoreOp → MapStoreS
  | .put p h lang lines syms now => updateFile st p h lang lines syms now
  | .remove p => (removeFile st p).2
  | .get p => (getFile st p).2
  | .find q k => (findSymbol st q k).2
  | .stats => updateStats st
  | .persist => save st

/-- Run a sequence of operations. -/
def runOps (st : MapStoreS) : List StoreOp → MapStoreS :=
  List.foldl runOp st

/-! ### Effective shard contents and the empty-shard invariant (C3) -/

/-- The contents of directory `d`'s shard as the store sees them: the
cached map if loaded, else the persisted one, else empty. -/
def effectiveMap (st : MapStoreS) (d : String) : DirMap :=
  match lookupA st.cache d with
  | some m => m
  | none =>
    match lookupA st.disk d with
    | some m => m
    | none => []

theorem loadDirMap_fst (st : MapStoreS) (d : String) :
    (loadDirMap st d).1 = effectiveMap st d := by
  unfold loadDirMap effectiveMap
  cases lookupA st.cache d with
  | some m => rfl
  | none => cases lookupA st.disk d <;> rfl

theorem loadDirMap_directories (st : MapStoreS) (d : String) :
    (loadDirMap st d).2.directories = st.directories := by
  unfold loadDirMap
  cases lookupA st.cache d with
  | some m => rfl
  | none => rfl

theorem effectiveMap_loadDirMap (st : MapStoreS) (d d' : String) :
    effectiveMap (loadDirMap st d).2 d' = effectiveMap st d' := by
  unfold loadDirMap
  cases hc : lookupA st.cache d with
  | some m => rfl
  | none =>
    by_cases hdd : d' = d
    · subst hdd
      unfold effectiveMap
      simp only [lookupA_insertA_self, hc]
    · unfold effectiveMap
      simp only [lookupA_insertA_ne _ _ hdd]

theorem lookupA_eq_none_iff {α : Type} (l : List (String × α)) (k : String) :
    lookupA l k = none ↔ k ∉ l.map Prod.fst := by
  induction l with
  | nil => simp [lookupA]
  | cons a rest ih =>
    by_cases hk : a.1 = k
    · simp [lookupA, hk]
    · simp [lookupA, hk, ih, Ne.symm hk]

theorem saveDirMap_cache (st : MapStoreS) (d : String) :
    (saveDirMap st d).cache = st.cache := by
  unfold saveDirMap
  cases lookupA st.cache d <;> rfl

theorem saveDirMap_directories (st : MapStoreS) (d : String) :
    (saveDirMap st d).directories = st.directories := by
  unfold saveDirMap
  cases lookupA st.cache d <;> rfl

theorem saveDirMap_disk_ne (st : MapStoreS) {d d' : String} (h : d' ≠ d) :
    lookupA (saveDirMap st d).disk d' = lookupA st.disk d' := by
  unfold saveDirMap
  cases lookupA st.cache d with
  | some m => simp [lookupA_insertA_ne _ _ h]
  | none => rfl

theorem saveDirMap_disk_self (st : MapStoreS) {d : String} {m : DirMap}
    (h : lookupA st.cache d = some m) :
    lookupA (saveDirMap st d).disk d = some m := by
  unfold saveDirMap
  rw [h]
  simp [lookupA_insertA_self]

theorem foldl_saveDirMap_cache (keys : List String) (st : MapStoreS) :
    (keys.foldl saveDirMap st).cache = st.cache := by
  induction keys generalizing st with
  | nil => rfl
  | cons k rest ih => rw [List.foldl_cons, ih, saveDirMap_cache]

theorem foldl_saveDirMap_directories (keys : List String) (st : MapStoreS) :
    (keys.foldl saveDirMap st).directories = st.directories := by
  induction keys generalizing st with
  | nil => rfl
  | cons k rest ih => rw [List.foldl_cons, ih, saveDirMap_directories]

theorem foldl_saveDirMap_disk_of_cached (keys : List String) (st : MapStoreS)
    {d : String} {m : DirMap} (hc : lookupA st.cache d = some m)
    (hin : d ∈ keys ∨ lookupA st.disk d = some m) :
    lookupA (keys.foldl saveDirMap st).disk d = some m := by
  induction keys generalizing st with
  | nil =>
    cases hin with
    | inl h => exact absurd h (List.not_mem_nil d)
    | inr h => exact h
  | cons k rest ih =>
    rw [List.foldl_cons]
    have hc' : lookupA (saveDirMap st k).cache d = some m := by
      rw [saveDirMap_cache]; exact hc
    by_cases hkd : d = k
    · subst hkd
      exact ih (saveDirMap st d) hc' (Or.inr (saveDirMap_disk_self st hc))
    · cases hin with
      | inl h =>
        have : d ∈ rest := by
          cases h with
          | head => exact absurd rfl hkd
          | tail _ h2 => exact h2
        exact ih (saveDirMap st k) hc' (Or.inl this)
      | inr h =>
        exact ih (saveDirMap st k) hc'
          (Or.inr (by rw [saveDirMap_disk_ne st hkd]; exact h))

theorem foldl_saveDirMap_disk_of_uncached (keys : List String) (st : MapStoreS)
    {d : String} (hd : d ∉ keys) :
    lookupA (keys.foldl saveDirMap st).disk d = lookupA st.disk d := by
  induction keys generalizing st with
  | nil => rfl
  | cons k rest ih =>
    rw [List.foldl_cons]
    have h1 : d ≠ k := fun h => hd (h ▸ List.mem_cons_self k rest)
    have h2 : d ∉ rest := fun h => hd (List.mem_cons_of_mem k h)
    rw [ih (saveDirMap st k) h2, saveDirMap_disk_ne st h1]

/-- The store invariant behind the empty-shard rule: the manifest's
directory list has no duplicates and every listed directory currently has
at least one `FileEntry` in its (cached or persisted) shard. -/
def Inv (st : MapStoreS) : Prop :=
  st.directories.Nodup ∧ ∀ d ∈ st.directories, effectiveMap st d ≠ []

theorem inv_emptyStore : Inv emptyStore :=
  ⟨List.nodup_nil, fun d hd => absurd hd (List.not_mem_nil d)⟩

theorem inv_loadDirMap (st : MapStoreS) (d : String) (hs : Inv st) :
    Inv (loadDirMap st d).2 := by
  obtain ⟨hnd, hne⟩ := hs
  refine ⟨by rw [loadDirMap_directories]; exact hnd, ?_⟩
  intro d' hd'
  rw [loadDirMap_directories] at hd'
  rw [effectiveMap_loadDirMap]
  exact hne d' hd'

theorem inv_updateFile (st : MapStoreS) (p hsh lang : String) (n : Nat)
    (syms : List Symbol) (now : String) (hs : Inv st) :
    Inv (updateFile st p hsh lang n syms now) := by
  obtain ⟨hnd1, hne1⟩ := inv_loadDirMap st (pathDir p) hs
  unfold updateFile
  dsimp only
  set d := pathDir p with hd
  set st1 := (loadDirMap st d).2 with hst1
  set m' := insertA (loadDirMap st d).1 (pathFile p)
    { hash := hsh, indexed_at := now, language := lang,
      lines := n, symbols := syms } with hm'
  have hmne : m' ≠ [] := insertA_ne_nil _ _ _
  have heff : ∀ d', effectiveMap { st1 with cache := insertA st1.cache d m' } d' =
      (if d' = d then m' else effectiveMap st1 d') := by
    intro d'
    by_cases hdd : d' = d
    · subst hdd
      simp [effectiveMap, lookupA_insertA_self]
    · simp [effectiveMap, lookupA_insertA_ne _ _ hdd, hdd]
  by_cases hcontains : st1.directories.contains d
  · rw [if_pos hcontains]
    refine ⟨hnd1, ?_⟩
    intro d' hd'
    rw [heff d']
    by_cases hdd : d' = d
    · simp [hdd, hmne]
    · simp only [hdd, if_false]
      exact hne1 d' hd'
  · rw [if_neg hcontains]
    have hdnotmem : d ∉ st1.directories := by simpa using hcontains
    have heff2 : ∀ d', effectiveMap
        { st1 with directories := st1.directories ++ [d],
                   cache := insertA st1.cache d m' } d' =
        (if d' = d then m' else effectiveMap st1 d') := by
      intro d'
      by_cases hdd : d' = d
      · subst hdd
        simp [effectiveMap, lookupA_insertA_self]
      · simp [effectiveMap, lookupA_insertA_ne _ _ hdd, hdd]
    constructor
    · simp [List.nodup_append, hnd1, hdnotmem]
    · intro d' hd'
      rw [heff2 d']
      by_cases hdd : d' = d
      · simp [hdd, hmne]
      · simp only [hdd, if_false]
        have : d' ∈ st1.directories := by
          cases List.mem_append.mp hd' with
          | inl h => exact h
          | inr h => exact absurd (List.mem_singleton.mp h) hdd
        exact hne1 d' this

theorem inv_removeFile (st : MapStoreS) (p : String) (hs : Inv st) :
    Inv (removeFile st p).2 := by
  obtain ⟨hnd1, hne1⟩ := inv_loadDirMap st (pathDir p) hs
  unfold removeFile
  dsimp only
  set d := pathDir p with hd
  set st1 := (loadDirMap st d).2 with hst1
  by_cases hfound : (lookupA (loadDirMap st d).1 (pathFile p)).isSome
  · rw [if_pos hfound]
    set m' := eraseA (loadDirMap st d).1 (pathFile p) with hm'
    have heff : ∀ d', effectiveMap { st1 with cache := insertA st1.cache d m' } d' =
        (if d' = d then m' else effectiveMap st1 d') := by
      intro d'
      by_cases hdd : d' = d
      · subst hdd
        simp [effectiveMap, lookupA_insertA_self]
      · simp [effectiveMap, lookupA_insertA_ne _ _ hdd, hdd]
    by_cases hempty : m'.isEmpty
    · rw [if_pos hempty]
      dsimp only
      constructor
      · exact hnd1.erase d
      · intro d' hd'
        have hdd : d' ≠ d := by
          intro hcontra
          subst hcontra
          exact (List.Nodup.mem_erase_iff hnd1).mp hd' |>.1 rfl
        have hd'mem : d' ∈ st1.directories :=
          ((List.Nodup.mem_erase_iff hnd1).mp hd').2
        have : effectiveMap
            { st1 with directories := st1.directories.erase d,
                       cache := eraseA (insertA st1.cache d m') d,
                       disk := eraseA st1.disk d } d' = effectiveMap st1 d' := by
          simp [effectiveMap, lookupA_eraseA_ne _ hdd,
            lookupA_insertA_ne _ _ hdd]
        rw [this]
        exact hne1 d' hd'mem
    · rw [if_neg hempty]
      refine ⟨hnd1, ?_⟩
      intro d' hd'
      rw [heff d']
      by_cases hdd : d' = d
      · simp only [hdd, if_true]
        intro hcontra
        rw [hcontra] at hempty
        exact hempty rfl
      · simp only [hdd, if_false]
        exact hne1 d' hd'
  · rw [if_neg hfound]
    exact ⟨hnd1, hne1⟩

theorem findSymbolAux_state (q : String) (k : Option String)
    (dirs : List String) (st : MapStoreS) :
    (findSymbolAux q k dirs st).2.directories = st.directories ∧
      ∀ d', effectiveMap (findSymbolAux q k dirs st).2 d' =
        effectiveMap st d' := by
  induction dirs generalizing st with
  | nil => exact ⟨rfl, fun d' => rfl⟩
  | cons d rest ih =>
    unfold findSymbolAux
    dsimp only
    cases searchDirMap d q k (loadDirMap st d).1 with
    | error e =>
      exact ⟨loadDirMap_directories st d, fun d' => effectiveMap_loadDirMap st d d'⟩
    | ok rs =>
      obtain ⟨ih1, ih2⟩ := ih (loadDirMap st d).2
      cases hnext : (findSymbolAux q k rest (loadDirMap st d).2).1 with
      | error e =>
        refine ⟨?_, ?_⟩
        · rw [ih1, loadDirMap_directories]
        · intro d'
          rw [ih2 d', effectiveMap_loadDirMap]
      | ok rs2 =>
        refine ⟨?_, ?_⟩
        · rw [ih1, loadDirMap_directories]
        · intro d'
          rw [ih2 d', effectiveMap_loadDirMap]

theorem updateStatsAux_state (dirs : List String) (st : MapStoreS)
    (tf ts : Nat) :
    (updateStatsAux dirs st tf ts).2.2.directories = st.directories ∧
      ∀ d', effectiveMap (updateStatsAux dirs st tf ts).2.2 d' =
        effectiveMap st d' := by
  induction dirs generalizing st tf ts with
  | nil => exact ⟨rfl, fun d' => rfl⟩
  | cons d rest ih =>
    unfold updateStatsAux
    dsimp only
    obtain ⟨ih1, ih2⟩ := ih (loadDirMap st d).2
      (tf + (loadDirMap st d).1.length)
      ((loadDirMap st d).1.foldl (fun acc fe => acc + countSymbols fe.2.symbols) ts)
    constructor
    · rw [ih1, loadDirMap_directories]
    · intro d'
      rw [ih2 d', effectiveMap_loadDirMap]

theorem inv_findSymbol (st : MapStoreS) (q : String) (k : Option String)
    (hs : Inv st) : Inv (findSymbol st q k).2 := by
  obtain ⟨h1, h2⟩ := findSymbolAux_state (pyLower q) k st.directories st
  obtain ⟨hnd, hne⟩ := hs
  unfold findSymbol
  refine ⟨by rw [h1]; exact hnd, ?_⟩
  intro d' hd'
  rw [h1] at hd'
  rw [h2 d']
  exact hne d' hd'

theorem inv_updateStats (st : MapStoreS) (hs : Inv st) :
    Inv (updateStats st) := by
  obtain ⟨h1, h2⟩ := updateStatsAux_state st.directories st 0 0
  obtain ⟨hnd, hne⟩ := hs
  unfold updateStats
  dsimp only
  refine ⟨by rw [h1]; exact hnd, ?_⟩
  intro d' hd'
  rw [h1] at hd'
  have : effectiveMap
      { (updateStatsAux st.directories st 0 0).2.2 with
        stats_files := (updateStatsAux st.directories st 0 0).1,
        stats_symbols := (updateStatsAux st.directories st 0 0).2.1 } d' =
      effectiveMap (updateStatsAux st.directories st 0 0).2.2 d' := rfl
  rw [this, h2 d']
  exact hne d' hd'

theorem effectiveMap_save (st : MapStoreS) (d' : String) :
    effectiveMap (save st) d' = effectiveMap st d' := by
  unfold save
  cases hc : lookupA st.cache d' with
  | some m =>
    have hcache := foldl_saveDirMap_cache (st.cache.map (fun kv => kv.1)) st
    unfold effectiveMap
    rw [hcache, hc]
  | none =>
    have hcache := foldl_saveDirMap_cache (st.cache.map (fun kv => kv.1)) st
    have hnotkey : d' ∉ st.cache.map Prod.fst := (lookupA_eq_none_iff _ _).mp hc
    have hdisk := foldl_saveDirMap_disk_of_uncached
      (st.cache.map (fun kv => kv.1)) st (by simpa using hnotkey)
    unfold effectiveMap
    rw [hcache, hc, hdisk]

theorem save_directories (st : MapStoreS) :
    (save st).directories = st.directories :=
  foldl_saveDirMap_directories _ st

theorem inv_save (st : MapStoreS) (hs : Inv st) : Inv (save st) := by
  obtain ⟨hnd, hne⟩ := hs
  refine ⟨by rw [save_directories]; exact hnd, ?_⟩
  intro d' hd'
  rw [save_directories] at hd'
  rw [effectiveMap_save]
  exact hne d' hd'

theorem inv_getFile (st : MapStoreS) (p : String) (hs : Inv st) :
    Inv (getFile st p).2 :=
  inv_loadDirMap st (pathDir p) hs

theorem inv_runOp (st : MapStoreS) (op : StoreOp) (hs : Inv st) :
    Inv (runOp st op) := by
  cases op with
  | put p h lang lines syms now => exact inv_updateFile st p h lang lines syms now hs
  | remove p => exact inv_removeFile st p hs
  | get p => exact inv_getFile st p hs
  | find q k => exact inv_findSymbol st q k hs
  | stats => exact inv_updateStats st hs
  | persist => exact inv_save st hs

theorem inv_runOps (ops : List StoreOp) (st : MapStoreS) (hs : Inv st) :
    Inv (runOps st ops) := by
  induction ops generalizing st with
  | nil => exact hs
  | cons op rest ih => exact ih (runOp st op) (inv_runOp st op hs)

theorem lookupA_isSome_mem_keys {α : Type} {l : List (String × α)}
    {k : String} {v : α} (h : lookupA l k = some v) :
    k ∈ l.map (fun kv => kv.1) := by
  by_contra hmem
  have hnone : lookupA l k = none :=
    (lookupA_eq_none_iff l k).mpr (by simpa using hmem)
  rw [hnone] at h
  cases h

/-! ### C3: empty shards and the manifest -/

/-- The store state after a `get` of a path in a never-indexed directory
followed by a persist. -/
def stC3 : MapStoreS :=
  runOps emptyStore [StoreOp.get "a/x.py", StoreOp.persist]

/-- C3 counterexample: the claim says that after `persist()` no shard
file with zero FileEntries exists on disk, for *every* sequence of store
operations.  But `get("a/x.py")` on a store that never indexed `a` caches
a fresh empty `DirectoryMap` for `a` (`_load_dir_map`), and `save()`
writes every cached map out (`_save_dir_map`'s `if not dir_map` guard only
skips a missing entry — a `DirectoryMap` object is always truthy), so an
empty shard file for `a` is persisted. -/
theorem C3_counterexample :
    lookupA stC3.disk "a" = some [] ∧ stC3.directories = [] := by
  constructor
  · rfl
  · rfl

/-- C3 (amended): after any operation sequence ending in `persist()`,
every directory listed in the manifest's directory set has a persisted
shard holding at least one FileEntry — the manifest half of the invariant
holds.  (Per the counterexample, an empty shard file *can* exist on disk
for a directory that was merely looked up during the session; such a
directory is never listed in the manifest.) -/
theorem C3_manifest_dirs_have_nonempty_shards (ops : List StoreOp) (d : String)
    (hd : d ∈ (runOps emptyStore (ops ++ [StoreOp.persist])).directories) :
    ∃ m, lookupA (runOps emptyStore (ops ++ [StoreOp.persist])).disk d = some m ∧
      m ≠ [] := by
  have hinv : Inv (runOps emptyStore ops) :=
    inv_runOps ops emptyStore inv_emptyStore
  have hrun : runOps emptyStore (ops ++ [StoreOp.persist]) =
      save (runOps emptyStore ops) := by
    unfold runOps
    rw [List.foldl_append]
    rfl
  rw [hrun] at hd ⊢
  obtain ⟨hnd, hne⟩ := hinv
  rw [save_directories] at hd
  have heff : effectiveMap (runOps emptyStore ops) d ≠ [] := hne d hd
  cases hc : lookupA (runOps emptyStore ops).cache d with
  | some m =>
    refine ⟨m, ?_, ?_⟩
    · unfold save
      exact foldl_saveDirMap_disk_of_cached _ _ hc
        (Or.inl (lookupA_isSome_mem_keys hc))
    · intro hmnil
      apply heff
      unfold effectiveMap
      rw [hc, hmnil]
  | none =>
    cases hdisk : lookupA (runOps emptyStore ops).disk d with
    | none =>
      exfalso
      apply heff
      unfold effectiveMap
      rw [hc, hdisk]
    | some m =>
      refine ⟨m, ?_, ?_⟩
      · unfold save
        rw [foldl_saveDirMap_disk_of_uncached _ _
          (by simpa using (lookupA_eq_none_iff _ _).mp hc), hdisk]
      · intro hmnil
        apply heff
        unfold effectiveMap
        rw [hc, hdisk, hmnil]

/-- Witness for `C3_manifest_dirs_have_nonempty_shards`: index one file,
persist, and the manifest's sole directory `a` has a persisted shard with
one entry. -/
theorem C3_witness :
    ∃ m, lookupA (runOps emptyStore
        ([StoreOp.put "a/x.py" "h1" "python" 3 [] "t1"] ++
          [StoreOp.persist])).disk "a" = some m ∧ m ≠ [] :=
  C3_manifest_dirs_have_nonempty_shards
    [StoreOp.put "a/x.py" "h1" "python" 3 [] "t1"] "a"
    (by rw [show (runOps emptyStore
        ([StoreOp.put "a/x.py" "h1" "python" 3 [] "t1"] ++
          [StoreOp.persist])).directories = ["a"] from rfl]
        exact List.mem_singleton.mpr rfl)

/-! ### C7 and C10: symbol search -/

mutual

/-- A symbol whose `children` field (and recursively those of all
descendants) is an explicit list rather than `None` — the shape
`Symbol.from_dict` always produces, so every store loaded from disk
satisfies it. -/
def allListSym : Symbol → Bool
  | .mk _ _ _ _ _ (some cs) => allListSymList cs
  | .mk _ _ _ _ _ none => false

/-- Models `allListSym` over a list. -/
def allListSymList : List Symbol → Bool
  | [] => true
  | c :: cs => allListSym c && allListSymList cs

end

/-- Every symbol of every entry reachable through the manifest has
list-shaped children. -/
def allListStore (st : MapStoreS) : Bool :=
  st.directories.all (fun d =>
    (effectiveMap st d).all (fun fe => allListSymList fe.2.symbols))

mutual

/-- Specification side of C7: the symbol nodes of a tree in preorder
(a node before its children; children read as a list). -/
def specNodes : Symbol → List Symbol
  | .mk n t li sg d (some cs) => .mk n t li sg d (some cs) :: specNodesList cs
  | .mk n t li sg d none => [.mk n t li sg d none]

/-- Models `specNodes` over a list, in order. -/
def specNodesList : List Symbol → List Symbol
  | [] => []
  | c :: cs => specNodes c ++ specNodesList cs

end

/-- Specification side of C7: a node matches when its lowercased name
contains the lowercased query as a substring and its kind equals the
filter when one is given. -/
def specMatches (q : String) (k : Option String) (sym : Symbol) : Bool :=
  pyInStr (pyLower q) (pyLower sym.name) &&
    (match k with | none => true | some t => sym.type == t)

/-- Specification side of C7: the reported row — owning file path, name,
kind, line range, signature, doc excerpt. -/
def specResult (filepath : String) (sym : Symbol) : SearchResult :=
  { file := filepath, name := sym.name, type := sym.type, lines := sym.lines,
    signature := sym.signature, docstring := sym.docstring }

/-- Models `specMatches` with the query already lowercased (as inside
`_search_symbol`). -/
def matchesLowered (ql : String) (k : Option String) (sym : Symbol) : Bool :=
  pyInStr ql (pyLower sym.name) &&
    (match k with | none => true | some t => sym.type == t)

/-- Specification side of C7: all matching nodes of all entries of all
manifest directories, each turned into its report row, in traversal
order. -/
def specFind (st : MapStoreS) (q : String) (k : Option String) :
    List SearchResult :=
  st.directories.flatMap (fun d =>
    (effectiveMap st d).flatMap (fun fe =>
      ((specNodesList fe.2.symbols).filter (specMatches q k)).map
        (specResult (if d ≠ "" then d ++ "/" ++ fe.1 else fe.1))))

theorem searchList_spec_aux :
    ∀ (n : Nat) (l : List Symbol), sizeOf l ≤ n →
      allListSymList l = true → ∀ (fp ql : String) (k : Option String),
      searchList l fp ql k =
        .ok (((specNodesList l).filter (matchesLowered ql k)).map
          (specResult fp)) := by
  intro n
  induction n with
  | zero =>
    intro l hl
    cases l with
    | nil => intro _ fp ql k; simp [searchList, specNodesList]
    | cons c cs =>
      intro _ _ _ _
      exfalso
      have hpos : 0 < sizeOf (c :: cs) := by
        simp only [List.cons.sizeOf_spec]
        omega
      omega
  | succ n ih =>
    intro l hl hall fp ql k
    cases l with
    | nil => simp [searchList, specNodesList]
    | cons c cs =>
      have hc : sizeOf c < sizeOf (c :: cs) := by
        simp only [List.cons.sizeOf_spec]
        omega
      have hcs : sizeOf cs < sizeOf (c :: cs) := by
        simp only [List.cons.sizeOf_spec]
        omega
      simp only [allListSymList, Bool.and_eq_true] at hall
      obtain ⟨hallc, hallcs⟩ := hall
      cases c with
      | mk nm ty li sg dc ch =>
        cases ch with
        | none => simp [allListSym] at hallc
        | some ccs =>
          have hccs : sizeOf ccs <
              sizeOf (Symbol.mk nm ty li sg dc (some ccs)) :=
            sizeOf_symChildren_lt rfl
          have ihccs := ih ccs (by omega) (by simpa [allListSym] using hallc)
            fp ql k
          have ihcs := ih cs (by omega) hallcs fp ql k
          simp only [searchList, searchSymbol, ihccs, ihcs]
          simp only [specNodesList, specNodes, List.cons_append,
            List.filter_cons, List.filter_append, List.map_append]
          by_cases hname :
              pyInStr ql (pyLower (Symbol.mk nm ty li sg dc (some ccs)).name)
          · by_cases hkind : (match k with
                | none => true
                | some t => (Symbol.mk nm ty li sg dc (some ccs)).type == t)
            · simp [matchesLowered, hname, hkind, specResult]
            · simp [matchesLowered, hname, hkind]
          · simp [matchesLowered, hname]

theorem searchDirMap_spec (d ql : String) (k : Option String) (m : DirMap)
    (hall : m.all (fun fe => allListSymList fe.2.symbols) = true) :
    searchDirMap d ql k m = .ok (m.flatMap (fun fe =>
      ((specNodesList fe.2.symbols).filter (matchesLowered ql k)).map
        (specResult (if d ≠ "" then d ++ "/" ++ fe.1 else fe.1)))) := by
  induction m with
  | nil => rfl
  | cons fe rest ih =>
    obtain ⟨f, entry⟩ := fe
    simp only [List.all_cons, Bool.and_eq_true] at hall
    have h1 := searchList_spec_aux (sizeOf entry.symbols) entry.symbols le_rfl
      hall.1 (if d ≠ "" then d ++ "/" ++ f else f) ql k
    simp only [searchDirMap, h1, ih hall.2, List.flatMap_cons]

theorem findSymbolAux_spec (ql : String) (k : Option String)
    (dirs : List String) (st : MapStoreS)
    (hall : ∀ d ∈ dirs,
      (effectiveMap st d).all (fun fe => allListSymList fe.2.symbols) = true) :
    (findSymbolAux ql k dirs st).1 = .ok (dirs.flatMap (fun d =>
      (effectiveMap st d).flatMap (fun fe =>
        ((specNodesList fe.2.symbols).filter (matchesLowered ql k)).map
          (specResult (if d ≠ "" then d ++ "/" ++ fe.1 else fe.1))))) := by
  induction dirs generalizing st with
  | nil => rfl
  | cons d rest ih =>
    unfold findSymbolAux
    dsimp only
    have hmall := hall d (List.mem_cons_self d rest)
    rw [loadDirMap_fst st d] at *
    rw [searchDirMap_spec d ql k _ hmall]
    have ihload := ih (loadDirMap st d).2 (fun d' hd' => by
      rw [effectiveMap_loadDirMap]
      exact hall d' (List.mem_cons_of_mem d hd'))
    simp only [effectiveMap_loadDirMap] at ihload
    simp only [List.flatMap_cons]
    rw [ihload]

/-! C7 theorems -/

/-- A store holding one file whose only symbol is a leaf with
`children=None`, exactly as produced by indexing with a tree-sitter
parser. -/
def stC7 : MapStoreS :=
  updateFile emptyStore "m.py" "h1" "python" 2
    [Symbol.mk "f" "function" (1, 2) none none none] "t1"

/-- C7 counterexample: the claim says `find_symbol` returns exactly
the matching symbol nodes for every store state.  On a store whose symbols
came fresh from a tree-sitter parser (leaf `children=None`), the
`for child in symbol.children` loop of `_search_symbol` raises `TypeError`
instead — even though the store's one symbol `f` matches the query `"f"`
(case-insensitive substring). -/
theorem C7_counterexample :
    (findSymbol stC7 "f" none).1 = .error () ∧
      specMatches "f" none (Symbol.mk "f" "function" (1, 2) none none none) =
        true := by
  constructor
  · rfl
  · decide

/-- C7 (amended): on every store state whose symbols' `children`
fields are explicit lists — in particular any store loaded from disk —
`find_symbol(q, k)` returns exactly the symbol nodes (at any depth, in any
manifest shard, a parent's children searched independently of the parent's
own match) whose lowercased name contains lowercased `q` and whose kind
equals `k` when given, each reported with owning file path, name, kind,
line range, signature and doc excerpt (`specFind`). -/
theorem C7_find_symbol_returns_exact_matches (st : MapStoreS) (q : String)
    (k : Option String) (hall : allListStore st = true) :
    (findSymbol st q k).1 = .ok (specFind st q k) := by
  unfold findSymbol specFind
  have hall' : ∀ d ∈ st.directories,
      (effectiveMap st d).all (fun fe => allListSymList fe.2.symbols) = true := by
    intro d hd
    exact List.all_eq_true.mp hall d hd
  exact findSymbolAux_spec (pyLower q) k st.directories st hall'

/-- A disk-shaped store for the C7/C10 witnesses: one class with one
method, children stored as explicit lists. -/
def stC7w : MapStoreS :=
  updateFile emptyStore "m.py" "h1" "python" 30
    [Symbol.mk "UserService" "class" (1, 30) none none
      (some [Symbol.mk "get_user" "method" (5, 15) none none (some [])])] "t1"

/-- Witness for `C7_find_symbol_returns_exact_matches`. -/
theorem C7_witness :
    (findSymbol stC7w "user" none).1 = .ok (specFind stC7w "user" none) :=
  C7_find_symbol_returns_exact_matches stC7w "user" none (by rfl)

/-! C10: empty query vs recomputed stats -/

theorem containsList_nil (l : List Char) : containsList [] l = true := by
  cases l with
  | nil => rfl
  | cons b bs => simp [containsList, startsWithList]

theorem matchesLowered_empty (sym : Symbol) :
    matchesLowered (pyLower "") none sym = true := by
  have hdata : (pyLower "").data = [] := rfl
  simp [matchesLowered, pyInStr, hdata, containsList_nil]

theorem countSymbols_eq (l : List Symbol) :
    countSymbols l = l.length + countExtra l := by
  cases l with
  | nil => simp [countSymbols, countExtra]
  | cons c cs => simp [countSymbols]

theorem length_specNodesList_aux :
    ∀ (n : Nat) (l : List Symbol), sizeOf l ≤ n → allListSymList l = true →
      (specNodesList l).length = countSymbols l := by
  intro n
  induction n with
  | zero =>
    intro l hl hall
    cases l with
    | nil => rfl
    | cons c cs =>
      exfalso
      have hpos : 0 < sizeOf (c :: cs) := by
        simp only [List.cons.sizeOf_spec]
        omega
      omega
  | succ n ih =>
    intro l hl hall
    cases l with
    | nil => rfl
    | cons c cs =>
      have hc : sizeOf c < sizeOf (c :: cs) := by
        simp only [List.cons.sizeOf_spec]
        omega
      have hcs : sizeOf cs < sizeOf (c :: cs) := by
        simp only [List.cons.sizeOf_spec]
        omega
      simp only [allListSymList, Bool.and_eq_true] at hall
      obtain ⟨hallc, hallcs⟩ := hall
      cases c with
      | mk nm ty li sg dc ch =>
        cases ch with
        | none => simp [allListSym] at hallc
        | some ccs =>
          have hccs : sizeOf ccs <
              sizeOf (Symbol.mk nm ty li sg dc (some ccs)) :=
            sizeOf_symChildren_lt rfl
          have ihccs := ih ccs (by omega) (by simpa [allListSym] using hallc)
          have ihcs := ih cs (by omega) hallcs
          have hce : countExtra (Symbol.mk nm ty li sg dc (some ccs) :: cs) =
              countSymbols ccs + countExtra cs := by
            rw [countExtra_cons]
            simp only [Symbol.children]
            cases ccs with
            | nil => simp [countSymbols]
            | cons x xs => simp
          rw [countSymbols_eq, hce]
          simp only [specNodesList, specNodes, List.length_append,
            List.length_cons]
          rw [ihccs, ihcs, countSymbols_eq cs]
          omega

/-- The per-shard symbol total summed by `update_stats`. -/
def dirCount (m : DirMap) : Nat :=
  m.foldl (fun a fe => a + countSymbols fe.2.symbols) 0

theorem foldl_count_shift (m : DirMap) (ts : Nat) :
    m.foldl (fun a fe => a + countSymbols fe.2.symbols) ts = ts + dirCount m := by
  induction m generalizing ts with
  | nil => simp [dirCount]
  | cons fe rest ih =>
    simp only [dirCount, List.foldl_cons] at *
    rw [ih (ts + countSymbols fe.2.symbols),
      ih (0 + countSymbols fe.2.symbols)]
    omega

/-- The manifest-wide symbol total over the current effective shards. -/
def sumDirCounts (st : MapStoreS) : List String → Nat
  | [] => 0
  | d :: rest => dirCount (effectiveMap st d) + sumDirCounts st rest

theorem sumDirCounts_congr {st1 st2 : MapStoreS}
    (h : ∀ d, effectiveMap st1 d = effectiveMap st2 d) (l : List String) :
    sumDirCounts st1 l = sumDirCounts st2 l := by
  induction l with
  | nil => rfl
  | cons d rest ih => simp [sumDirCounts, h d, ih]

theorem updateStatsAux_symbols (dirs : List String) :
    ∀ (st : MapStoreS) (tf ts : Nat),
      (updateStatsAux dirs st tf ts).2.1 = ts + sumDirCounts st dirs := by
  induction dirs with
  | nil => intro st tf ts; simp [updateStatsAux, sumDirCounts]
  | cons d rest ih =>
    intro st tf ts
    unfold updateStatsAux
    dsimp only
    rw [ih, foldl_count_shift, loadDirMap_fst,
      sumDirCounts_congr (effectiveMap_loadDirMap st d) rest]
    simp [sumDirCounts]
    omega

theorem entry_flatMap_length (ql : String) (k : Option String) (fps : String → String)
    (m : DirMap) (hall : m.all (fun fe => allListSymList fe.2.symbols) = true)
    (htrue : ∀ sym, matchesLowered ql k sym = true) :
    (m.flatMap (fun fe =>
      ((specNodesList fe.2.symbols).filter (matchesLowered ql k)).map
        (specResult (fps fe.1)))).length = dirCount m := by
  induction m with
  | nil => rfl
  | cons fe rest ih =>
    simp only [List.all_cons, Bool.and_eq_true] at hall
    have hfilter : (specNodesList fe.2.symbols).filter (matchesLowered ql k) =
        specNodesList fe.2.symbols :=
      List.filter_eq_self.mpr (fun x _ => htrue x)
    simp only [List.flatMap_cons, List.length_append, List.length_map, hfilter]
    rw [ih hall.2, length_specNodesList_aux (sizeOf fe.2.symbols)
      fe.2.symbols le_rfl hall.1]
    simp only [dirCount, List.foldl_cons]
    rw [foldl_count_shift rest (0 + countSymbols fe.2.symbols)]
    simp only [dirCount]
    omega

theorem dirs_flatMap_length (ql : String) (k : Option String)
    (st : MapStoreS) (htrue : ∀ sym, matchesLowered ql k sym = true) :
    ∀ (dirs : List String),
      (∀ d ∈ dirs, (effectiveMap st d).all
        (fun fe => allListSymList fe.2.symbols) = true) →
      (dirs.flatMap (fun d =>
        (effectiveMap st d).flatMap (fun fe =>
          ((specNodesList fe.2.symbols).filter (matchesLowered ql k)).map
            (specResult (if d ≠ "" then d ++ "/" ++ fe.1 else fe.1))))).length =
        sumDirCounts st dirs := by
  intro dirs
  induction dirs with
  | nil => intro _; rfl
  | cons d rest ih =>
    intro hall
    simp only [List.flatMap_cons, List.length_append, sumDirCounts]
    rw [entry_flatMap_length ql k
      (fun f => if d ≠ "" then d ++ "/" ++ f else f)
      (effectiveMap st d) (hall d (List.mem_cons_self d rest)) htrue]
    rw [ih (fun d' hd' => hall d' (List.mem_cons_of_mem d hd'))]

/-- C10 counterexample: the claim quantifies over every store state,
but on a store holding a fresh tree-sitter symbol (leaf `children=None`)
`find_symbol("")` raises `TypeError` while `recompute_stats` counts the
symbol without error, so the claimed equality fails (there is no result
list at all). -/
theorem C10_counterexample :
    (findSymbol stC7 "" none).1 = .error () ∧
      (updateStats stC7).stats_symbols = 1 := by
  constructor
  · rfl
  · rfl

/-- C10 (amended): on every store state whose symbols' `children`
fields are explicit lists (e.g. any store loaded from disk),
`find_symbol("")` with no kind filter returns one result per symbol node,
and the length of the result list equals the total recursive symbol count
that `recompute_stats` stores in the manifest. -/
theorem C10_empty_query_counts_all_symbols (st : MapStoreS)
    (hall : allListStore st = true) :
    ∃ l, (findSymbol st "" none).1 = .ok l ∧
      l.length = (updateStats st).stats_symbols := by
  have hall' : ∀ d ∈ st.directories,
      (effectiveMap st d).all (fun fe => allListSymList fe.2.symbols) = true := by
    intro d hd
    exact List.all_eq_true.mp hall d hd
  have hfind : (findSymbolAux (pyLower "") none st.directories st).1 =
      .ok (st.directories.flatMap (fun d =>
        (effectiveMap st d).flatMap (fun fe =>
          ((specNodesList fe.2.symbols).filter
            (matchesLowered (pyLower "") none)).map
            (specResult (if d ≠ "" then d ++ "/" ++ fe.1 else fe.1))))) :=
    findSymbolAux_spec (pyLower "") none st.directories st hall'
  refine ⟨_, hfind, ?_⟩
  rw [dirs_flatMap_length (pyLower "") none st matchesLowered_empty
    st.directories hall']
  have hstats : (updateStats st).stats_symbols =
      (updateStatsAux st.directories st 0 0).2.1 := rfl
  rw [hstats, updateStatsAux_symbols st.directories st 0 0]
  omega

/-- Witness for `C10_empty_query_counts_all_symbols`. -/
theorem C10_witness :
    ∃ l, (findSymbol stC7w "" none).1 = .ok l ∧
      l.length = (updateStats stC7w).stats_symbols :=
  C10_empty_query_counts_all_symbols stC7w (by rfl)

/-! ### The indexing orchestrator (`indexer.py`, `hasher.py`): C8, C9

File contents, the hash primitive (`hashlib.sha256`), UTF-8 decoding,
line counting, language detection and the parser registry are external
collaborators of the orchestrator (spec §6); they enter as parameters.
Paths are modelled as already root-relative strings (the
`relative_to(self.root)` plumbing). -/

/-- What the file system holds at one path. -/
inductive FsFile where
  | absent
  | unreadable
  | content (bytes : List Nat)

/-- Models `hash_file`: the first 12 characters of the SHA-256 hex digest of the
raw bytes; opening a missing file raises `FileNotFoundError`, an
unreadable one `PermissionError` (both `Except.error`). -/
def hash_file (sha256hex : List Nat → String) (fs : String → FsFile)
    (p : String) : Except Unit String :=
  match fs p with
  | .content b => .ok (pyTake (sha256hex b) 12)
  | _ => .error ()

/-- Models `Path.exists()` (true also for an unreadable file). -/
def fsExists (fs : String → FsFile) (p : String) : Bool :=
  match fs p with
  | .absent => false
  | _ => true

/-- Models `Indexer.validate_file`: no entry → `False`; path missing → `False`;
then the fingerprint is recomputed inside `try/except` — any failure gives
`False` — and compared to the stored one.  The function is total
(`Bool`-valued): the exception branch of `hash_file` is caught here. -/
def validateFile (sha256hex : List Nat → String) (fs : String → FsFile)
    (st : MapStoreS) (p : String) : Bool :=
  match (getFile st p).1 with
  | none => false
  | some entry =>
    if fsExists fs p then
      match hash_file sha256hex fs p with
      | .ok h => h == entry.hash
      | .error _ => false
    else false

/-- C8: `validate(p)` is true exactly when `p` has a stored entry, the
path exists on disk, and the freshly computed fingerprint equals the
stored one; and whenever the fingerprint computation fails, `validate`
returns false (it is `Bool`-valued — the `try/except` in the source means
no exception escapes). -/
theorem C8_validate_iff_fresh_fingerprint_matches
    (sha256hex : List Nat → String) (fs : String → FsFile) (st : MapStoreS)
    (p : String) :
    (validateFile sha256hex fs st p = true ↔
      ∃ entry, (getFile st p).1 = some entry ∧ fsExists fs p = true ∧
        hash_file sha256hex fs p = .ok entry.hash) ∧
    (hash_file sha256hex fs p = .error () →
      validateFile sha256hex fs st p = false) := by
  constructor
  · unfold validateFile
    cases hg : (getFile st p).1 with
    | none => simp
    | some entry =>
      dsimp only
      by_cases hex : fsExists fs p
      · rw [if_pos hex]
        cases hh : hash_file sha256hex fs p with
        | error e => simp [hex, hh]
        | ok h =>
          simp only [beq_iff_eq, hex, hh, true_and]
          constructor
          · intro heq
            exact ⟨entry, rfl, by rw [heq]⟩
          · rintro ⟨entry', he', hh'⟩
            cases he'
            cases hh'
            rfl
      · simp [hex]
  · intro herr
    unfold validateFile
    cases (getFile st p).1 with
    | none => rfl
    | some entry =>
      dsimp only
      by_cases hex : fsExists fs p
      · rw [if_pos hex, herr]
      · rw [if_neg hex]

/-- Witness for `C8_validate_iff_fresh_fingerprint_matches`: on a missing
file the fingerprint computation fails and `validate` is false. -/
theorem C8_witness :
    hash_file (fun _ => "0123456789abcdef") (fun _ => FsFile.absent)
        "a.py" = .error () ∧
      validateFile (fun _ => "0123456789abcdef") (fun _ => FsFile.absent)
        emptyStore "a.py" = false :=
  ⟨rfl,
    (C8_validate_iff_fresh_fingerprint_matches (fun _ => "0123456789abcdef")
      (fun _ => FsFile.absent) emptyStore "a.py").2 rfl⟩

theorem getFile_updateFile (st : MapStoreS) (p hsh lang : String) (n : Nat)
    (syms : List Symbol) (now : String) :
    (getFile (updateFile st p hsh lang n syms now) p).1 =
      some { hash := hsh, indexed_at := now, language := lang,
             lines := n, symbols := syms } := by
  unfold getFile
  dsimp only
  rw [loadDirMap_fst]
  unfold updateFile
  dsimp only
  split
  all_goals simp only [effectiveMap, lookupA_insertA_self]

/-- Models `Indexer._index_file`: detect the language, pick the registered
parser, read the file (a read failure propagates), parse (a
`SyntaxError` is caught and the file is indexed with zero symbols),
then store `(hash, language, line count, symbols)` via
`MapStore.update_file`.  When no language or parser is known the store is
untouched. -/
def indexFile (sha256hex : List Nat → String) (decode : List Nat → String)
    (countLinesOf : List Nat → Nat) (getLang : String → Option String)
    (parsers : String → Option (String → Except Unit (List Symbol)))
    (fs : String → FsFile) (st : MapStoreS) (p : String) (now : String) :
    Except Unit (MapStoreS × List Symbol) :=
  match getLang p with
  | none => .ok (st, [])
  | some lang =>
    match parsers lang with
    | none => .ok (st, [])
    | some parse =>
      match fs p with
      | .content b =>
        let content := decode b
        let symbols :=
          match parse content with
          | .ok syms => syms
          | .error _ => []
        .ok (updateFile st p (pyTake (sha256hex b) 12) lang (countLinesOf b)
          symbols now, symbols)
      | _ => .error ()

/-- C9: when a file's bytes are unchanged between two indexing runs
(and its language has a registered parser), both runs succeed, extract the
same symbol list, and store entries with the same fingerprint and the same
symbol tree (only the indexed-at timestamps `t1`,`t2` may differ), and
`validate(p)` is true after either run. -/
theorem C9_reindex_unchanged_file_idempotent
    (sha256hex : List Nat → String) (decode : List Nat → String)
    (countLinesOf : List Nat → Nat) (getLang : String → Option String)
    (parsers : String → Option (String → Except Unit (List Symbol)))
    (fs : String → FsFile) (st : MapStoreS) (p t1 t2 lang : String)
    (parse : String → Except Unit (List Symbol)) (b : List Nat)
    (hl : getLang p = some lang) (hp : parsers lang = some parse)
    (hb : fs p = .content b) :
    ∃ st1 st2 syms e1 e2,
      indexFile sha256hex decode countLinesOf getLang parsers fs st p t1 =
        .ok (st1, syms) ∧
      indexFile sha256hex decode countLinesOf getLang parsers fs st1 p t2 =
        .ok (st2, syms) ∧
      (getFile st1 p).1 = some e1 ∧ (getFile st2 p).1 = some e2 ∧
      e2.hash = e1.hash ∧ e2.symbols = e1.symbols ∧
      validateFile sha256hex fs st1 p = true ∧
      validateFile sha256hex fs st2 p = true := by
  have hsyms : ∀ st' now, indexFile sha256hex decode countLinesOf getLang
      parsers fs st' p now = .ok
        (updateFile st' p (pyTake (sha256hex b) 12) lang (countLinesOf b)
          (match parse (decode b) with
           | .ok syms => syms
           | .error _ => []) now,
         (match parse (decode b) with
          | .ok syms => syms
          | .error _ => [])) := by
    intro st' now
    simp only [indexFile, hl, hp, hb]
  set syms := (match parse (decode b) with
    | .ok syms => syms
    | .error _ => []) with hsymsdef
  set st1 := updateFile st p (pyTake (sha256hex b) 12) lang (countLinesOf b)
    syms t1 with hst1
  set st2 := updateFile st1 p (pyTake (sha256hex b) 12) lang (countLinesOf b)
    syms t2 with hst2
  have hval : ∀ stx tx, validateFile sha256hex fs
      (updateFile stx p (pyTake (sha256hex b) 12) lang (countLinesOf b)
        syms tx) p = true := by
    intro stx tx
    unfold validateFile
    rw [getFile_updateFile]
    dsimp only
    have hex : fsExists fs p = true := by
      unfold fsExists
      rw [hb]
    rw [if_pos hex]
    unfold hash_file
    rw [hb]
    simp
  refine ⟨st1, st2, syms, _, _, hsyms st t1, hsyms st1 t2,
    getFile_updateFile st p _ lang _ syms t1,
    getFile_updateFile st1 p _ lang _ syms t2, rfl, rfl,
    hval st t1, hval st1 t2⟩

/-- Witness for `C9_reindex_unchanged_file_idempotent`. -/
theorem C9_witness :
    ∃ st1 st2 syms e1 e2,
      indexFile (fun _ => "0123456789abcdef") (fun _ => "")
        (fun _ => 1) (fun _ => some "python")
        (fun _ => some (fun _ => .ok []))
        (fun _ => FsFile.content [104, 105]) emptyStore "a.py" "t1" =
          .ok (st1, syms) ∧
      indexFile (fun _ => "0123456789abcdef") (fun _ => "")
        (fun _ => 1) (fun _ => some "python")
        (fun _ => some (fun _ => .ok []))
        (fun _ => FsFile.content [104, 105]) st1 "a.py" "t2" =
          .ok (st2, syms) ∧
      (getFile st1 "a.py").1 = some e1 ∧ (getFile st2 "a.py").1 = some e2 ∧
      e2.hash = e1.hash ∧ e2.symbols = e1.symbols ∧
      validateFile (fun _ => "0123456789abcdef")
        (fun _ => FsFile.content [104, 105]) st1 "a.py" = true ∧
      validateFile (fun _ => "0123456789abcdef")
        (fun _ => FsFile.content [104, 105]) st2 "a.py" = true :=
  C9_reindex_unchanged_file_idempotent (fun _ => "0123456789abcdef")
    (fun _ => "") (fun _ => 1) (fun _ => some "python")
    (fun _ => some (fun _ => .ok [])) (fun _ => FsFile.content [104, 105])
    emptyStore "a.py" "t1" "t2" "python" (fun _ => .ok []) [104, 105]
    rfl rfl rfl

end Codemap
